import Mathlib

/-
A verification development for a small YouTube caption backend.

The repository consists of caption_service.py (URL validation, video id
extraction, caption fetching and formatting), app.py (the HTTP endpoint)
and a trivial main.py.  This file gives a shallow embedding of those
functions over lists of characters and proves the behavioural properties
stated in the accompanying specification.

Modelling conventions:
* Python strings are modelled as `List Char`.
* The character classes of the regular expressions involved (`\w`, `\s`,
  `[A-Z]`) are modelled on their ASCII fragment; the code only relies on
  ASCII members of these classes.
* `urllib.parse.urlparse`, `parse_qs` and `unquote` are modelled after
  CPython 3.10: tab/CR/LF removal, the mismatched-bracket netloc check
  (which raises ValueError), `&`-only query separators, UTF-8 percent
  decoding with replacement.  The NFKC netloc check, which can only fire
  for non-ASCII authorities, is outside the model; the one theorem that
  would need it restricts itself to ASCII authorities.
* Exceptions are modelled with `Except`; a caught exception corresponds
  to an `.error` value consumed by the caller.
-/

/-- Python strings are modelled as lists of characters. -/
abbrev Str := List Char

/-- ASCII fragment of the regex character class `[\w-]` used in the two
YouTube URL patterns: digits, upper case letters, lower case letters,
underscore, hyphen. -/
def wordChar (c : Char) : Bool :=
  (48 ≤ c.toNat && c.toNat ≤ 57) || (65 ≤ c.toNat && c.toNat ≤ 90) ||
  (97 ≤ c.toNat && c.toNat ≤ 122) || c == '_' || c == '-'

/-- ASCII fragment of the regex class `\s` (Python whitespace). -/
def wsChar (c : Char) : Bool :=
  c == ' ' || c == '\t' || c == '\n' || c == '\r' || c == '\x0b' || c == '\x0c'

/-- The regex class `[A-Z]` (exactly ASCII upper case, also in Python). -/
def upperChar (c : Char) : Bool :=
  65 ≤ c.toNat && c.toNat ≤ 90

/-- Strip a literal prefix: `dropLit p l = some r` iff `l = p ++ r`.
Used to embed the literal parts of the two URL regexes. -/
def dropLit : Str → Str → Option Str
  | [], l => some l
  | _ :: _, [] => none
  | p :: ps, c :: cs => if c = p then dropLit ps cs else none

/-- Embeds the regex tail `[\w-]+` with no anchor after it: since the
pattern ends there, `re.match` succeeds iff at least one word/hyphen
character follows. -/
def matchIdTail : Str → Bool
  | [] => false
  | c :: _ => wordChar c

/-- Embeds `<host literal>[\w-]+` at the current position: the literal part
of the pattern after the optional `www.`, then at least one `[\w-]`. -/
def hostTailMatch (host r : Str) : Bool :=
  match dropLit host r with
  | some r2 => matchIdTail r2
  | none => false

/-- Embeds `(www\.)?<host literal>[\w-]+`: the group is optional, so the
match succeeds iff either alternative does. -/
def matchAfterScheme (host r : Str) : Bool :=
  (match dropLit ("www.".data) r with
   | some r2 => hostTailMatch host r2
   | none => false) || hostTailMatch host r

/-- Embeds `re.match` of `^https?://(www\.)?<host literal>[\w-]+`:
anchored at the start, `https?` is the two scheme alternatives. -/
def matchPattern (host url : Str) : Bool :=
  (match dropLit ("http://".data) url with
   | some r => matchAfterScheme host r
   | none => false) ||
  (match dropLit ("https://".data) url with
   | some r => matchAfterScheme host r
   | none => false)

/-- caption_service.validate_youtube_url: `if not url: return False`, then
`re.match` of the two patterns
`^https?://(www\.)?youtube\.com/watch\?v=[\w-]+` and
`^https?://(www\.)?youtu\.be/[\w-]+`, returning True on the first hit. -/
def validate_youtube_url (url : Str) : Bool :=
  if url.isEmpty then false
  else matchPattern ("youtube.com/watch?v=".data) url ||
       matchPattern ("youtu.be/".data) url

/-- The shape the specification describes: scheme `http://` or `https://`,
an optional `www.`, one of the two host/path literals, then a video id of
one or more word/hyphen characters.  `re.match` only anchors at the start,
so arbitrary text may follow the id. -/
def HasYoutubeShape (url : Str) : Prop :=
  ∃ scheme www host vid rest,
    (scheme = "http://".data ∨ scheme = "https://".data) ∧
    (www = ([] : Str) ∨ www = "www.".data) ∧
    (host = "youtube.com/watch?v=".data ∨ host = "youtu.be/".data) ∧
    vid ≠ [] ∧ (∀ c ∈ vid, wordChar c = true) ∧
    url = scheme ++ www ++ host ++ vid ++ rest

theorem dropLit_some_iff (p : Str) : ∀ (l r : Str), dropLit p l = some r ↔ l = p ++ r := by
  induction p with
  | nil => intro l r; simp [dropLit]
  | cons p ps ih =>
    intro l r
    cases l with
    | nil => simp [dropLit]
    | cons c cs =>
      by_cases h : c = p
      · subst h
        simp [dropLit, ih]
      · simp [dropLit, h]

theorem matchIdTail_iff (r : Str) :
    matchIdTail r = true ↔ ∃ c rest, r = c :: rest ∧ wordChar c = true := by
  cases r with
  | nil => simp [matchIdTail]
  | cons c rest =>
    simp only [matchIdTail]
    constructor
    · intro h; exact ⟨c, rest, rfl, h⟩
    · rintro ⟨c2, rest2, heq, hw⟩
      cases heq; exact hw

theorem hostTailMatch_iff (host r : Str) :
    hostTailMatch host r = true ↔ ∃ c rest, wordChar c = true ∧ r = host ++ c :: rest := by
  unfold hostTailMatch
  cases hd : dropLit host r with
  | none =>
    simp only [Bool.false_eq_true, false_iff]
    rintro ⟨c, rest, _, heq⟩
    have := (dropLit_some_iff host r (c :: rest)).mpr heq
    rw [hd] at this; exact Option.noConfusion this
  | some r2 =>
    have h2 := (dropLit_some_iff host r r2).mp hd
    subst h2
    rw [matchIdTail_iff]
    constructor
    · rintro ⟨c, rest, heq, hw⟩
      exact ⟨c, rest, hw, by rw [heq]⟩
    · rintro ⟨c, rest, hw, heq⟩
      have : r2 = c :: rest := by
        have := List.append_cancel_left heq
        exact this
      exact ⟨c, rest, this, hw⟩

theorem matchAfterScheme_iff (host r : Str) :
    matchAfterScheme host r = true ↔
      ∃ www c rest, (www = ([] : Str) ∨ www = "www.".data) ∧ wordChar c = true ∧
        r = www ++ (host ++ c :: rest) := by
  unfold matchAfterScheme
  rw [Bool.or_eq_true]
  constructor
  · intro h
    rcases h with h | h
    · cases hd : dropLit ("www.".data) r with
      | none => rw [hd] at h; exact absurd h (by simp)
      | some r2 =>
        rw [hd] at h
        have h2 := (dropLit_some_iff _ r r2).mp hd
        rcases (hostTailMatch_iff host r2).mp h with ⟨c, rest, hw, heq⟩
        exact ⟨"www.".data, c, rest, Or.inr rfl, hw, by rw [h2, heq]⟩
    · rcases (hostTailMatch_iff host r).mp h with ⟨c, rest, hw, heq⟩
      exact ⟨[], c, rest, Or.inl rfl, hw, by simpa using heq⟩
  · rintro ⟨www, c, rest, hwww, hw, heq⟩
    rcases hwww with h0 | h0
    · subst h0
      right
      rw [hostTailMatch_iff]
      exact ⟨c, rest, hw, by simpa using heq⟩
    · subst h0
      left
      have hd : dropLit ("www.".data) r = some (host ++ c :: rest) :=
        (dropLit_some_iff _ r _).mpr heq
      rw [hd]
      rw [hostTailMatch_iff]
      exact ⟨c, rest, hw, rfl⟩

theorem matchPattern_iff (host url : Str) :
    matchPattern host url = true ↔
      ∃ scheme www c rest,
        (scheme = "http://".data ∨ scheme = "https://".data) ∧
        (www = ([] : Str) ∨ www = "www.".data) ∧ wordChar c = true ∧
        url = scheme ++ (www ++ (host ++ c :: rest)) := by
  unfold matchPattern
  rw [Bool.or_eq_true]
  constructor
  · intro h
    rcases h with h | h
    · cases hd : dropLit ("http://".data) url with
      | none => rw [hd] at h; exact absurd h (by simp)
      | some r =>
        rw [hd] at h
        have h2 := (dropLit_some_iff _ url r).mp hd
        rcases (matchAfterScheme_iff host r).mp h with ⟨www, c, rest, hwww, hw, heq⟩
        exact ⟨"http://".data, www, c, rest, Or.inl rfl, hwww, hw, by rw [h2, heq]⟩
    · cases hd : dropLit ("https://".data) url with
      | none => rw [hd] at h; exact absurd h (by simp)
      | some r =>
        rw [hd] at h
        have h2 := (dropLit_some_iff _ url r).mp hd
        rcases (matchAfterScheme_iff host r).mp h with ⟨www, c, rest, hwww, hw, heq⟩
        exact ⟨"https://".data, www, c, rest, Or.inr rfl, hwww, hw, by rw [h2, heq]⟩
  · rintro ⟨scheme, www, c, rest, hs, hwww, hw, heq⟩
    rcases hs with h0 | h0
    · subst h0
      left
      have hd : dropLit ("http://".data) url = some (www ++ (host ++ c :: rest)) :=
        (dropLit_some_iff _ url _).mpr heq
      rw [hd]
      rw [matchAfterScheme_iff]
      exact ⟨www, c, rest, hwww, hw, rfl⟩
    · subst h0
      right
      have hd : dropLit ("https://".data) url = some (www ++ (host ++ c :: rest)) :=
        (dropLit_some_iff _ url _).mpr heq
      rw [hd]
      rw [matchAfterScheme_iff]
      exact ⟨www, c, rest, hwww, hw, rfl⟩

theorem validate_iff_matchPattern (url : Str) :
    validate_youtube_url url = true ↔
      matchPattern ("youtube.com/watch?v=".data) url = true ∨
      matchPattern ("youtu.be/".data) url = true := by
  unfold validate_youtube_url
  by_cases he : url.isEmpty
  · rw [if_pos he]
    simp only [Bool.false_eq_true, false_iff]
    have hnil : url = [] := by
      cases url with
      | nil => rfl
      | cons a l => simp [List.isEmpty] at he
    subst hnil
    intro h
    rcases h with h | h <;>
    · rcases (matchPattern_iff _ _).mp h with ⟨s, w, c, r, hs, _, _, heq⟩
      rcases hs with h0 | h0 <;> (subst h0; exact absurd heq.symm (by simp))
  · rw [if_neg he]
    rw [Bool.or_eq_true]

/-- C1.  validate_youtube_url accepts exactly the strings that start with
one of the two YouTube shapes (`https?://[www.]youtube.com/watch?v=<id>`
or `https?://[www.]youtu.be/<id>`, `<id>` one or more word/hyphen
characters, arbitrary text allowed after), and in particular it accepts
the two sample URLs and rejects the vimeo URL and the empty string. -/
theorem spec_c1 :
    (∀ url, validate_youtube_url url = true ↔ HasYoutubeShape url) ∧
    validate_youtube_url ("https://www.youtube.com/watch?v=abc123".data) = true ∧
    validate_youtube_url ("https://youtu.be/abc123".data) = true ∧
    validate_youtube_url ("https://vimeo.com/123".data) = false ∧
    validate_youtube_url ("".data) = false := by
  refine ⟨?_, by decide, by decide, by decide, by decide⟩
  intro url
  rw [validate_iff_matchPattern]
  constructor
  · intro h
    rcases h with h | h
    · rcases (matchPattern_iff _ _).mp h with ⟨s, w, c, r, hs, hw, hwc, heq⟩
      refine ⟨s, w, "youtube.com/watch?v=".data, [c], r, hs, hw, Or.inl rfl, by simp,
        by simp [hwc], ?_⟩
      rw [heq]; simp
    · rcases (matchPattern_iff _ _).mp h with ⟨s, w, c, r, hs, hw, hwc, heq⟩
      refine ⟨s, w, "youtu.be/".data, [c], r, hs, hw, Or.inr rfl, by simp,
        by simp [hwc], ?_⟩
      rw [heq]; simp
  · rintro ⟨s, w, host, vid, rest, hs, hw, hh, hne, hall, heq⟩
    rcases List.exists_cons_of_ne_nil hne with ⟨v, vs, hvid⟩
    subst hvid
    have hv : wordChar v = true := hall v (by simp)
    rcases hh with h0 | h0 <;>
      subst h0
    · left
      rw [matchPattern_iff]
      refine ⟨s, w, v, vs ++ rest, hs, hw, hv, ?_⟩
      rw [heq]; simp
    · right
      rw [matchPattern_iff]
      refine ⟨s, w, v, vs ++ rest, hs, hw, hv, ?_⟩
      rw [heq]; simp

/-- CPython 3.10 urlsplit first removes tab, CR and LF anywhere in the
URL (the unsafe URL bytes). -/
def sanitizeUrl (url : Str) : Str :=
  url.filter (fun c => !(c == '\t' || c == '\r' || c == '\n'))

/-- Split a list at the first occurrence of `t`: `some (a, b)` with
`l = a ++ t :: b` and `t ∉ a`, or `none` when `t` does not occur.
Embeds `str.find` and `str.split(t, 1)`. -/
def splitAtFirst (t : Char) : Str → Option (Str × Str)
  | [] => none
  | c :: rest =>
    if c = t then some ([], rest)
    else match splitAtFirst t rest with
      | some (a, b) => some (c :: a, b)
      | none => none

/-- Split a list at the last occurrence of `t`.  Embeds `str.rfind`. -/
def splitAtLast (t : Char) : Str → Option (Str × Str)
  | [] => none
  | c :: rest =>
    match splitAtLast t rest with
    | some (a, b) => some (c :: a, b)
    | none => if c = t then some ([], rest) else none

/-- The part of `l` before the first `t`, all of `l` when `t` is absent:
`url.split(t, 1)[0]` under the guard `if t in url`. -/
def beforeFirst (t : Char) (l : Str) : Str :=
  match splitAtFirst t l with
  | some (a, _) => a
  | none => l

/-- The part of `l` after the first `t`, empty when `t` is absent. -/
def afterFirst (t : Char) (l : Str) : Str :=
  match splitAtFirst t l with
  | some (_, b) => b
  | none => []

/-- The scheme characters of urllib.parse: letters, digits and `+-.`. -/
def schemeChar (c : Char) : Bool :=
  (48 ≤ c.toNat && c.toNat ≤ 57) || (65 ≤ c.toNat && c.toNat ≤ 90) ||
  (97 ≤ c.toNat && c.toNat ≤ 122) || c == '+' || c == '-' || c == '.'

/-- ASCII lower casing, as `str.lower` acts on the schemes in play. -/
def lowerAscii (c : Char) : Char :=
  if 65 ≤ c.toNat && c.toNat ≤ 90 then Char.ofNat (c.toNat + 32) else c

/-- urlsplit scheme handling: `i = url.find(':')`; when `i > 0` and every
character before the colon is a scheme character, the lowered scheme is
split off, otherwise the URL stays whole with an empty scheme. -/
def schemeSplit (url : Str) : Str × Str :=
  match splitAtFirst ':' url with
  | some (before, after) =>
    if before ≠ [] ∧ before.all schemeChar then (before.map lowerAscii, after)
    else ([], url)
  | none => ([], url)

/-- A character ending the authority: the first of `/?#` after `//`. -/
def netlocDelim (c : Char) : Bool := c == '/' || c == '?' || c == '#'

/-- The netloc split of urlsplit: when the remainder starts with `//`,
the authority runs to the first of `/?#`. -/
def netlocSplit : Str → Str × Str
  | '/' :: '/' :: rest =>
    (rest.takeWhile (fun c => !netlocDelim c), rest.dropWhile (fun c => !netlocDelim c))
  | l => ([], l)

/-- The mismatched-bracket test of urlsplit, which raises
`ValueError("Invalid IPv6 URL")` when it holds. -/
def bracketMismatch (nl : Str) : Bool :=
  (nl.contains '[' && !nl.contains ']') || (nl.contains ']' && !nl.contains '[')

structure SplitResult where
  scheme : Str
  netloc : Str
  path : Str
  query : Str
  fragment : Str

/-- The authority CPython 3.10 urlsplit sees for a sanitized URL. -/
def netlocOf (u0 : Str) : Str := (netlocSplit (schemeSplit u0).2).1

/-- CPython 3.10 urlsplit on a sanitized URL (allow_fragments defaulted to
True): split the scheme, split the authority after `//` raising ValueError
(modelled as `.error ()`) on a mismatched square bracket, split the
fragment at the first `#`, then the query at the first `?`. -/
def urlsplitCore (u0 : Str) : Except Unit SplitResult :=
  let su := schemeSplit u0
  let nu := netlocSplit su.2
  if bracketMismatch nu.1 then .error ()
  else
    let bf := beforeFirst '#' nu.2
    .ok ⟨su.1, nu.1, beforeFirst '?' bf, afterFirst '?' bf, afterFirst '#' nu.2⟩

def urlsplitE (url : Str) : Except Unit SplitResult :=
  urlsplitCore (sanitizeUrl url)

/-- The schemes of urllib.parse that use path params. -/
def usesParams : List Str :=
  ["".data, "ftp".data, "hdl".data, "prospero".data, "http".data, "imap".data,
   "https".data, "shttp".data, "rtsp".data, "rtspu".data, "sip".data,
   "sips".data, "mms".data, "sftp".data, "tel".data]

/-- urllib `_splitparams`: when the path has a slash, the params split is
at the first `;` at or after the last slash; otherwise at the first `;`. -/
def splitParams (url : Str) : Str × Str :=
  match splitAtLast '/' url with
  | some (a, b) =>
    match splitAtFirst ';' b with
    | some (b1, b2) => (a ++ '/' :: b1, b2)
    | none => (url, [])
  | none =>
    match splitAtFirst ';' url with
    | some (u1, u2) => (u1, u2)
    | none => (url, [])

structure ParseResult where
  scheme : Str
  netloc : Str
  path : Str
  params : Str
  query : Str
  fragment : Str

/-- urllib `urlparse`: urlsplit, then for a scheme that uses params a `;`
in the path splits the params off the path. -/
def urlparseE (url : Str) : Except Unit ParseResult :=
  match urlsplitE url with
  | .error e => .error e
  | .ok s =>
    if s.scheme ∈ usesParams ∧ s.path.contains ';' then
      let pp := splitParams s.path
      .ok ⟨s.scheme, s.netloc, pp.1, pp.2, s.query, s.fragment⟩
    else .ok ⟨s.scheme, s.netloc, s.path, [], s.query, s.fragment⟩

/-- Value of one hex digit, upper or lower case, as in `_hextobyte`. -/
def hexVal (c : Char) : Option Nat :=
  if 48 ≤ c.toNat && c.toNat ≤ 57 then some (c.toNat - 48)
  else if 65 ≤ c.toNat && c.toNat ≤ 70 then some (c.toNat - 55)
  else if 97 ≤ c.toNat && c.toNat ≤ 102 then some (c.toNat - 87)
  else none

/-- The UTF-8 bytes of one character. -/
def utf8Encode (c : Char) : List Nat :=
  let n := c.toNat
  if n ≤ 0x7F then [n]
  else if n ≤ 0x7FF then [0xC0 + n / 64, 0x80 + n % 64]
  else if n ≤ 0xFFFF then [0xE0 + n / 4096, 0x80 + n / 64 % 64, 0x80 + n % 64]
  else [0xF0 + n / 262144, 0x80 + n / 4096 % 64, 0x80 + n / 64 % 64, 0x80 + n % 64]

/-- urllib `unquote_to_bytes`: each `%xx` with two hex digits becomes one
byte; a `%` not followed by two hex digits stays literal; any other
character contributes its UTF-8 bytes. -/
def pctBytes : Str → List Nat
  | [] => []
  | c :: rest =>
    if c = '%' then
      match rest with
      | a :: b :: rest2 =>
        (match hexVal a, hexVal b with
         | some ha, some hb => (16 * ha + hb) :: pctBytes rest2
         | _, _ => utf8Encode '%' ++ pctBytes (a :: b :: rest2))
      | r1 => utf8Encode '%' ++ pctBytes r1
    else utf8Encode c ++ pctBytes rest

/-- The Unicode replacement character produced by `errors="replace"`. -/
def replChar : Char := Char.ofNat 0xFFFD

/-- A UTF-8 continuation byte. -/
def contByte (b : Nat) : Bool := 0x80 ≤ b && b ≤ 0xBF

/-- Valid second byte of a three byte sequence with lead `b1` (the E0/ED
rows exclude overlong encodings and surrogates). -/
def cont3 (b1 b2 : Nat) : Bool :=
  if b1 = 0xE0 then 0xA0 ≤ b2 && b2 ≤ 0xBF
  else if b1 = 0xED then 0x80 ≤ b2 && b2 ≤ 0x9F
  else contByte b2

/-- Valid second byte of a four byte sequence with lead `b1`. -/
def cont4 (b1 b2 : Nat) : Bool :=
  if b1 = 0xF0 then 0x90 ≤ b2 && b2 ≤ 0xBF
  else if b1 = 0xF4 then 0x80 ≤ b2 && b2 ≤ 0x8F
  else contByte b2

/-- UTF-8 decoding with `errors="replace"`: one replacement character per
maximal invalid subpart, as CPython decodes. -/
def utf8Decode : List Nat → List Char
  | [] => []
  | b :: rest =>
    if b ≤ 0x7F then Char.ofNat b :: utf8Decode rest
    else if b ≤ 0xC1 then replChar :: utf8Decode rest
    else if b ≤ 0xDF then
      match rest with
      | [] => [replChar]
      | b2 :: r2 =>
        if contByte b2 then Char.ofNat ((b - 0xC0) * 64 + (b2 - 0x80)) :: utf8Decode r2
        else replChar :: utf8Decode (b2 :: r2)
    else if b ≤ 0xEF then
      match rest with
      | [] => [replChar]
      | b2 :: r2 =>
        if cont3 b b2 then
          match r2 with
          | [] => [replChar]
          | b3 :: r3 =>
            if contByte b3 then
              Char.ofNat ((b - 0xE0) * 4096 + (b2 - 0x80) * 64 + (b3 - 0x80)) :: utf8Decode r3
            else replChar :: utf8Decode (b3 :: r3)
        else replChar :: utf8Decode (b2 :: r2)
    else if b ≤ 0xF4 then
      match rest with
      | [] => [replChar]
      | b2 :: r2 =>
        if cont4 b b2 then
          match r2 with
          | [] => [replChar]
          | b3 :: r3 =>
            if contByte b3 then
              match r3 with
              | [] => [replChar]
              | b4 :: r4 =>
                if contByte b4 then
                  Char.ofNat ((b - 0xF0) * 262144 + (b2 - 0x80) * 4096 +
                    (b3 - 0x80) * 64 + (b4 - 0x80)) :: utf8Decode r4
                else replChar :: utf8Decode (b4 :: r4)
            else replChar :: utf8Decode (b3 :: r3)
        else replChar :: utf8Decode (b2 :: r2)
    else replChar :: utf8Decode rest

/-- urllib `unquote` with UTF-8 and `errors="replace"`. -/
def unquote (s : Str) : Str := utf8Decode (pctBytes s)

/-- The `str.replace` of `+` with a space applied by parse_qsl. -/
def plusToSpace (s : Str) : Str := s.map (fun c => if c = '+' then ' ' else c)

/-- `str.split(t)` with all occurrences, keeping empty chunks. -/
def splitAll (t : Char) : Str → List Str
  | [] => [[]]
  | c :: rest =>
    if c = t then [] :: splitAll t rest
    else match splitAll t rest with
      | s :: ss => (c :: s) :: ss
      | [] => [[c]]

/-- One chunk of parse_qsl with the default arguments: an empty chunk is
skipped, a chunk without `=` is skipped, a blank value is skipped, and a
kept pair gets plus-to-space and unquote on both name and value. -/
def qsPair (chunk : Str) : Option (Str × Str) :=
  if chunk = [] then none
  else match splitAtFirst '=' chunk with
    | none => none
    | some (n, v) =>
      if v = [] then none
      else some (unquote (plusToSpace n), unquote (plusToSpace v))

/-- urllib `parse_qsl` with default arguments: split on `&`, then keep
the chunks qsPair keeps. -/
def parse_qsl (qs : Str) : List (Str × Str) :=
  (splitAll '&' qs).filterMap qsPair

/-- The lookup step of `parse_qs(qs)[name]`. -/
def qsSelect (name : Str) (p : Str × Str) : Option Str :=
  if p.1 = name then some p.2 else none

/-- The list `parse_qs(qs)[name]` (empty when the key is absent):
parse_qs groups the parse_qsl pairs by name, keeping value order. -/
def qsValues (qs name : Str) : List Str :=
  (parse_qsl qs).filterMap (qsSelect name)

/-- Python substring containment, `needle in hay`. -/
def containsSub (needle : Str) : Str → Bool
  | [] => needle.isEmpty
  | c :: rest => (dropLit needle (c :: rest)).isSome || containsSub needle rest

/-- caption_service.extract_video_id: parse the URL; a netloc containing
`youtu.be` returns the path with leading slashes stripped; otherwise a
netloc containing `youtube.com` returns the first `v` query value when one
is present; otherwise None.  A ValueError from urlparse propagates. -/
def extract_video_id (url : Str) : Except Unit (Option Str) :=
  match urlparseE url with
  | .error e => .error e
  | .ok p =>
    if containsSub ("youtu.be".data) p.netloc then
      .ok (some (p.path.dropWhile (fun c => c == '/')))
    else if containsSub ("youtube.com".data) p.netloc then
      match qsValues p.query ("v".data) with
      | v :: _ => .ok (some v)
      | [] => .ok none
    else .ok none

theorem extract_video_id_ok (url : Str) (p : ParseResult) (hp : urlparseE url = .ok p) :
    extract_video_id url =
      (if containsSub ("youtu.be".data) p.netloc then
        .ok (some (p.path.dropWhile (fun c => c == '/')))
      else if containsSub ("youtube.com".data) p.netloc then
        (match qsValues p.query ("v".data) with
         | v :: _ => .ok (some v)
         | [] => .ok none)
      else .ok none) := by
  unfold extract_video_id
  rw [hp]

theorem urlparseE_ok (url : Str) (s : SplitResult) (hs : urlsplitE url = .ok s) :
    urlparseE url =
      (if s.scheme ∈ usesParams ∧ s.path.contains ';' then
        .ok ⟨s.scheme, s.netloc, (splitParams s.path).1, (splitParams s.path).2,
             s.query, s.fragment⟩
      else .ok ⟨s.scheme, s.netloc, s.path, [], s.query, s.fragment⟩) := by
  unfold urlparseE
  rw [hs]

/-- C2.  For every URL that urlparse accepts, extract_video_id returns the
slash-stripped path for a youtu.be netloc, the first `v` query value (or
None when `v` is absent) for a youtube.com netloc, and None when neither
matches.  The netloc tests mirror the substring tests of the code. -/
theorem spec_c2 : ∀ url p, urlparseE url = .ok p →
    (containsSub ("youtu.be".data) p.netloc = true →
      extract_video_id url = .ok (some (p.path.dropWhile (fun c => c == '/')))) ∧
    (containsSub ("youtu.be".data) p.netloc = false →
      containsSub ("youtube.com".data) p.netloc = true →
      extract_video_id url = .ok ((qsValues p.query ("v".data)).head?)) ∧
    (containsSub ("youtu.be".data) p.netloc = false →
      containsSub ("youtube.com".data) p.netloc = false →
      extract_video_id url = .ok none) := by
  intro url p hp
  rw [extract_video_id_ok url p hp]
  refine ⟨?_, ?_, ?_⟩
  · intro h1
    rw [if_pos h1]
  · intro h1 h2
    rw [if_neg (by simp [h1]), if_pos h2]
    cases hq : qsValues p.query ("v".data) with
    | nil => simp
    | cons v vs => simp
  · intro h1 h2
    rw [if_neg (by simp [h1]), if_neg (by simp [h2])]

/-- Witness for C2: the three sample URLs of the claim, settled by the
theorem at their concrete parse results. -/
theorem spec_c2_witness :
    extract_video_id ("https://youtu.be/XYZ".data) = .ok (some ("XYZ".data)) ∧
    extract_video_id ("https://www.youtube.com/watch?v=XYZ&t=5".data) =
      .ok (some ("XYZ".data)) ∧
    extract_video_id ("https://example.com".data) = .ok none := by
  refine ⟨?_, ?_, ?_⟩
  · exact (spec_c2 ("https://youtu.be/XYZ".data)
      ⟨"https".data, "youtu.be".data, "/XYZ".data, [], [], []⟩ rfl).1 rfl
  · exact ((spec_c2 ("https://www.youtube.com/watch?v=XYZ&t=5".data)
      ⟨"https".data, "www.youtube.com".data, "/watch".data, [],
       "v=XYZ&t=5".data, []⟩ rfl).2.1 rfl rfl)
  · exact ((spec_c2 ("https://example.com".data)
      ⟨"https".data, "example.com".data, [], [], [], []⟩ rfl).2.2 rfl rfl)

/-- C8 counterexample: on the malformed input `http://[` the bracket check
of urlparse raises ValueError, so extract_video_id does raise. -/
theorem spec_c8_counterexample : extract_video_id ("http://[".data) = .error () := rfl

theorem urlsplitE_eq_error (url : Str) (e : Unit) (h : urlsplitE url = .error e) :
    bracketMismatch (netlocOf (sanitizeUrl url)) = true := by
  by_cases hb : bracketMismatch (netlocOf (sanitizeUrl url)) = true
  · exact hb
  · exfalso
    unfold urlsplitE urlsplitCore at h
    unfold netlocOf at hb
    rw [if_neg hb] at h
    exact Except.noConfusion h

/-- C8 amended: extract_video_id returns a value (a string or None) on
every input whose authority is ASCII and has no mismatched square
bracket; on a mismatched bracket, such as in `http://[`, the underlying
urlparse raises ValueError instead. -/
theorem evi_ok_of_parse (url : Str) (p : ParseResult) (hp : urlparseE url = .ok p) :
    ∃ r, extract_video_id url = .ok r := by
  rw [extract_video_id_ok url p hp]
  split
  · exact ⟨_, rfl⟩
  · split
    · cases hq : qsValues p.query ("v".data) with
      | nil => exact ⟨_, rfl⟩
      | cons v vs => exact ⟨_, rfl⟩
    · exact ⟨_, rfl⟩

theorem spec_c8_amended : ∀ url : Str,
    bracketMismatch (netlocOf (sanitizeUrl url)) = false →
    (∀ c ∈ netlocOf (sanitizeUrl url), c.toNat ≤ 127) →
    ∃ r, extract_video_id url = .ok r := by
  intro url hb _
  obtain ⟨s, hs⟩ : ∃ s, urlsplitE url = .ok s := by
    cases hE : urlsplitE url with
    | error e =>
      rw [urlsplitE_eq_error url e hE] at hb
      exact Bool.noConfusion hb
    | ok s => exact ⟨s, rfl⟩
  obtain ⟨p, hp⟩ : ∃ p, urlparseE url = .ok p := by
    have hq := urlparseE_ok url s hs
    by_cases hc : s.scheme ∈ usesParams ∧ s.path.contains ';'
    · rw [if_pos hc] at hq; exact ⟨_, hq⟩
    · rw [if_neg hc] at hq; exact ⟨_, hq⟩
  exact evi_ok_of_parse url p hp

/-- Witness for C8 amended: a well formed URL satisfies both conditions
and gets a value. -/
theorem spec_c8_amended_witness :
    bracketMismatch (netlocOf (sanitizeUrl ("https://example.com".data))) = false ∧
    (∀ c ∈ netlocOf (sanitizeUrl ("https://example.com".data)), c.toNat ≤ 127) ∧
    ∃ r, extract_video_id ("https://example.com".data) = .ok r := by
  exact ⟨rfl, by decide, spec_c8_amended ("https://example.com".data) rfl (by decide)⟩

/-- The Python exceptions the caption service distinguishes. -/
inductive PyExc where
  | typeError
  | keyError
  | attrError
  | valueError
  | noTranscriptFound
  | transcriptsDisabled
  | videoUnavailable
  | otherError
deriving DecidableEq, Repr

/-- One caption segment as format_captions may receive it: either a
mapping (subscriptable, read as `segment["text"]`) or an object whose
`text` attribute is present or absent. -/
inductive Segment where
  | dictSeg (entries : List (Str × Str))
  | objSeg (text : Option Str)
deriving DecidableEq, Repr

/-- Association lookup, first match wins: dict access on string keys. -/
def lookupField : List (Str × Str) → Str → Option Str
  | [], _ => none
  | (k, v) :: rest, key => if k = key then some v else lookupField rest key

/-- `segment["text"]`: KeyError on a mapping without the key, TypeError on
an object, which is not subscriptable. -/
def getItemText : Segment → Except PyExc Str
  | .dictSeg es =>
    (match lookupField es ("text".data) with
     | some t => .ok t
     | none => .error .keyError)
  | .objSeg _ => .error .typeError

/-- `segment.text`: AttributeError on a mapping (a dict has no such
attribute) and on an object without the attribute. -/
def getAttrText : Segment → Except PyExc Str
  | .dictSeg _ => .error .attrError
  | .objSeg (some t) => .ok t
  | .objSeg none => .error .attrError

/-- A Python list comprehension over the segments: the first exception
aborts the whole comprehension. -/
def mapE (f : Segment → Except PyExc Str) : List Segment → Except PyExc (List Str)
  | [] => .ok []
  | s :: rest =>
    match f s with
    | .error e => .error e
    | .ok t =>
      match mapE f rest with
      | .error e => .error e
      | .ok ts => .ok (t :: ts)

/-- `sep.join(parts)`. -/
def joinWith (sep : Str) : List Str → Str
  | [] => []
  | [s] => s
  | s :: rest => s ++ sep ++ joinWith sep rest

/-- The whitespace collapse `re.sub(r"\s+", " ", text)`: each maximal
whitespace run becomes one space.  `inRun` records that the previous
character belonged to a run already replaced. -/
def collapseWsAux : Bool → Str → Str
  | _, [] => []
  | true, c :: rest =>
    if wsChar c then collapseWsAux true rest
    else c :: collapseWsAux false rest
  | false, c :: rest =>
    if wsChar c then ' ' :: collapseWsAux true rest
    else c :: collapseWsAux false rest

def collapseWs (l : Str) : Str := collapseWsAux false l

/-- The boundary repair `re.sub(r"\.(?=[A-Z])", ". ", text)`: a space is
inserted after a period directly followed by an ASCII upper case letter;
the lookahead is not consumed, so scanning resumes at that letter. -/
def fixDots : Str → Str
  | [] => []
  | [c] => [c]
  | c1 :: c2 :: rest =>
    if c1 = '.' ∧ upperChar c2 = true then '.' :: ' ' :: fixDots (c2 :: rest)
    else c1 :: fixDots (c2 :: rest)

/-- A character that licences a sentence boundary for the split. -/
def sentEnd (c : Char) : Bool := c == '.' || c == '!' || c == '?'

/-- The sentence split `re.split(r"(?<=[.!?])\s+", text)` as a character
automaton: a whitespace run directly preceded by `.`, `!` or `?` is one
match and separates two pieces.  Matches are maximal and do not overlap:
`inRun` records that such a run is still being consumed, `prev` whether
the previous character licences a new match. -/
def sentAux (inRun prev : Bool) (cur : Str) : Str → List Str
  | [] => [cur.reverse]
  | c :: rest =>
    if inRun then
      if wsChar c then sentAux true false cur rest
      else sentAux false (sentEnd c) [c] rest
    else if prev && wsChar c then cur.reverse :: sentAux true false [] rest
    else sentAux false (sentEnd c) (c :: cur) rest

def sentSplit (l : Str) : List Str := sentAux false false [] l

/-- The paragraph grouping `sentences[i : i + 5]` for i in steps of 5. -/
def chunks5 : List Str → List (List Str)
  | [] => []
  | a :: b :: c :: d :: e :: rest => [a, b, c, d, e] :: chunks5 rest
  | l => [l]

/-- The placeholder string format_captions returns when both access
styles fail. -/
def errPlaceholder : Str :=
  ("Error: Unable to process captions from this video. Please try another video.".data)

/-- Steps 2 to 6 of format_captions on the extracted texts: join with
single spaces, collapse whitespace, repair sentence boundaries, split
into sentences, group in fives (a group is joined with spaces and kept
only when the joined text is non empty), join groups with a blank line. -/
def formatCore (texts : List Str) : Str :=
  let raw := joinWith (" ".data) texts
  let cleaned := fixDots (collapseWs raw)
  let sentences := sentSplit cleaned
  let paragraphs := ((chunks5 sentences).map (joinWith (" ".data))).filter
    (fun par => !par.isEmpty)
  joinWith ("\n\n".data) paragraphs

/-- caption_service.format_captions: empty input returns the empty
string; the dict style comprehension runs first, its TypeError or
KeyError falls back to the attribute style comprehension, whose
AttributeError yields the placeholder; any other exception would
propagate out of the handlers. -/
def format_captions (data : List Segment) : Except PyExc Str :=
  if data.isEmpty then .ok []
  else
    match mapE getItemText data with
    | .ok texts => .ok (formatCore texts)
    | .error e =>
      if e = .typeError ∨ e = .keyError then
        match mapE getAttrText data with
        | .ok texts => .ok (formatCore texts)
        | .error e2 =>
          if e2 = .attrError then .ok errPlaceholder else .error e2
      else .error e

/-- C9.  format_captions on the empty segment list returns the empty
string. -/
theorem spec_c9 : format_captions [] = .ok ("".data) := rfl

theorem getItemText_error (s : Segment) (e : PyExc) (h : getItemText s = .error e) :
    e = PyExc.typeError ∨ e = PyExc.keyError := by
  cases s with
  | dictSeg es =>
    simp only [getItemText] at h
    split at h
    · exact Except.noConfusion h
    · cases h; exact Or.inr rfl
  | objSeg t =>
    simp only [getItemText] at h
    cases h
    exact Or.inl rfl

theorem getAttrText_error (s : Segment) (e : PyExc) (h : getAttrText s = .error e) :
    e = PyExc.attrError := by
  cases s with
  | dictSeg es => cases h; rfl
  | objSeg t =>
    cases t with
    | some t0 => exact Except.noConfusion h
    | none => cases h; rfl

theorem mapE_error (f : Segment → Except PyExc Str)
    (errs : ∀ s e, f s = .error e → e = PyExc.typeError ∨ e = PyExc.keyError) :
    ∀ data e, mapE f data = .error e → e = PyExc.typeError ∨ e = PyExc.keyError := by
  intro data
  induction data with
  | nil => intro e h; exact Except.noConfusion h
  | cons s rest ih =>
    intro e h
    simp only [mapE] at h
    split at h
    · cases h
      exact errs s _ (by assumption)
    · split at h
      · cases h
        exact ih _ (by assumption)
      · exact Except.noConfusion h

theorem mapE_attr_error :
    ∀ data e, mapE getAttrText data = .error e → e = PyExc.attrError := by
  intro data
  induction data with
  | nil => intro e h; exact Except.noConfusion h
  | cons s rest ih =>
    intro e h
    simp only [mapE] at h
    split at h
    · cases h
      exact getAttrText_error s _ (by assumption)
    · split at h
      · cases h
        exact ih _ (by assumption)
      · exact Except.noConfusion h

theorem isEmpty_false_of_ne_nil {α : Type} {data : List α} (h : data ≠ []) :
    data.isEmpty = false := by
  cases data with
  | nil => exact absurd rfl h
  | cons a l => rfl

theorem format_captions_placeholder (data : List Segment) (e1 e2 : PyExc)
    (hne : data ≠ []) (h1 : mapE getItemText data = .error e1)
    (he1 : e1 = PyExc.typeError ∨ e1 = PyExc.keyError)
    (h2 : mapE getAttrText data = .error e2) (he2 : e2 = PyExc.attrError) :
    format_captions data = .ok errPlaceholder := by
  unfold format_captions
  split
  · rename_i hemp
    rw [isEmpty_false_of_ne_nil hne] at hemp
    exact Bool.noConfusion hemp
  · split
    · rename_i texts heq
      rw [h1] at heq
      exact Except.noConfusion heq
    · rename_i e heq
      rw [h1] at heq
      cases heq
      split
      · split
        · rename_i texts heq2
          rw [h2] at heq2
          exact Except.noConfusion heq2
        · rename_i e2x heq2
          rw [h2] at heq2
          cases heq2
          rw [if_pos he2]
      · rename_i hcond
        exact absurd he1 hcond

/-- C4.  format_captions never raises on the segment universe: it always
returns a string without propagating an exception, and when both access
styles fail on the segments it returns the descriptive placeholder. -/
theorem spec_c4 : ∀ data : List Segment,
    (∃ out, format_captions data = .ok out) ∧
    (∀ e1 e2, mapE getItemText data = .error e1 → mapE getAttrText data = .error e2 →
      format_captions data = .ok errPlaceholder) := by
  intro data
  constructor
  · unfold format_captions
    split
    · exact ⟨_, rfl⟩
    · split
      · exact ⟨_, rfl⟩
      · rename_i e heq
        split
        · split
          · exact ⟨_, rfl⟩
          · rename_i e2 heq2
            split
            · exact ⟨_, rfl⟩
            · rename_i hne
              exact absurd (mapE_attr_error data e2 heq2) hne
        · rename_i hne
          exact absurd (mapE_error getItemText getItemText_error data e heq) hne
  · intro e1 e2 h1 h2
    have hd : data ≠ [] := by
      intro h
      subst h
      exact Except.noConfusion h1
    exact format_captions_placeholder data e1 e2 hd h1
      (mapE_error getItemText getItemText_error data e1 h1) h2 (mapE_attr_error data e2 h2)

/-- Witness for C4: a single attribute-free object defeats both access
styles and yields the placeholder. -/
theorem spec_c4_witness :
    mapE getItemText [Segment.objSeg none] = .error PyExc.typeError ∧
    mapE getAttrText [Segment.objSeg none] = .error PyExc.attrError ∧
    format_captions [Segment.objSeg none] = .ok errPlaceholder := by
  exact ⟨rfl, rfl, (spec_c4 [Segment.objSeg none]).2 PyExc.typeError PyExc.attrError rfl rfl⟩

/-- After the whitespace collapse every whitespace character is a single
space and no two neighbouring characters are both whitespace. -/
def WsCollapsed (l : Str) : Prop :=
  (∀ c ∈ l, wsChar c = true → c = ' ') ∧
  List.Chain' (fun a b => ¬(wsChar a = true ∧ wsChar b = true)) l

/-- After the boundary repair no period is directly followed by an upper
case letter. -/
def DotsSpaced (l : Str) : Prop :=
  List.Chain' (fun a b => ¬(a = '.' ∧ upperChar b = true)) l

theorem collapseWsAux_head (l : Str) :
    ∀ c, (collapseWsAux true l).head? = some c → wsChar c = false := by
  induction l with
  | nil => intro c h; exact Option.noConfusion h
  | cons c0 rest ih =>
    intro c h
    by_cases hw : wsChar c0 = true
    · rw [collapseWsAux, if_pos hw] at h
      exact ih c h
    · rw [collapseWsAux, if_neg hw, List.head?_cons] at h
      cases h
      exact Bool.eq_false_iff.mpr hw

theorem collapseWsAux_space (l : Str) :
    ∀ b, ∀ c ∈ collapseWsAux b l, wsChar c = true → c = ' ' := by
  induction l with
  | nil => intro b c h; cases b <;> exact absurd h (List.not_mem_nil c)
  | cons c0 rest ih =>
    intro b c h hw
    by_cases h0 : wsChar c0 = true
    · cases b with
      | true =>
        rw [collapseWsAux, if_pos h0] at h
        exact ih true c h hw
      | false =>
        rw [collapseWsAux, if_pos h0] at h
        rcases List.mem_cons.mp h with h | h
        · exact h
        · exact ih true c h hw
    · cases b with
      | true =>
        rw [collapseWsAux, if_neg h0] at h
        rcases List.mem_cons.mp h with h | h
        · subst h; exact absurd hw h0
        · exact ih false c h hw
      | false =>
        rw [collapseWsAux, if_neg h0] at h
        rcases List.mem_cons.mp h with h | h
        · subst h; exact absurd hw h0
        · exact ih false c h hw

theorem collapseWsAux_chain (l : Str) :
    ∀ b, List.Chain' (fun a b => ¬(wsChar a = true ∧ wsChar b = true)) (collapseWsAux b l) := by
  induction l with
  | nil => intro b; cases b <;> simp [collapseWsAux]
  | cons c0 rest ih =>
    intro b
    by_cases h0 : wsChar c0 = true
    · cases b with
      | true =>
        rw [collapseWsAux, if_pos h0]
        exact ih true
      | false =>
        rw [collapseWsAux, if_pos h0, List.chain'_cons']
        refine ⟨?_, ih true⟩
        intro y hy hcon
        have := collapseWsAux_head rest y hy
        rw [this] at hcon
        exact Bool.noConfusion hcon.2
    · cases b with
      | true =>
        rw [collapseWsAux, if_neg h0, List.chain'_cons']
        refine ⟨?_, ih false⟩
        intro y hy hcon
        exact h0 hcon.1
      | false =>
        rw [collapseWsAux, if_neg h0, List.chain'_cons']
        refine ⟨?_, ih false⟩
        intro y hy hcon
        exact h0 hcon.1

theorem collapseWs_collapsed (l : Str) : WsCollapsed (collapseWs l) :=
  ⟨collapseWsAux_space l false, collapseWsAux_chain l false⟩

theorem collapseWsAux_nonWs (l : Str) :
    ∀ b, (collapseWsAux b l).filter (fun c => !wsChar c) = l.filter (fun c => !wsChar c) := by
  induction l with
  | nil => intro b; cases b <;> rfl
  | cons c0 rest ih =>
    intro b
    by_cases h0 : wsChar c0 = true
    · cases b with
      | true =>
        rw [collapseWsAux, if_pos h0, List.filter_cons_of_neg (by simp [h0])]
        exact ih true
      | false =>
        rw [collapseWsAux, if_pos h0, List.filter_cons_of_neg (by simp [wsChar]),
          List.filter_cons_of_neg (by simp [h0])]
        exact ih true
    · cases b with
      | true =>
        rw [collapseWsAux, if_neg h0, List.filter_cons_of_pos (by simp [h0]),
          List.filter_cons_of_pos (by simp [h0])]
        rw [ih false]
      | false =>
        rw [collapseWsAux, if_neg h0, List.filter_cons_of_pos (by simp [h0]),
          List.filter_cons_of_pos (by simp [h0])]
        rw [ih false]

theorem fixDots_head (c : Char) (l : Str) : (fixDots (c :: l)).head? = some c := by
  cases l with
  | nil => rfl
  | cons c2 rest =>
    by_cases h : (c = '.' ∧ upperChar c2 = true)
    · rw [fixDots, if_pos h, h.1]
      rfl
    · rw [fixDots, if_neg h]
      rfl

theorem fixDots_chain : (l : Str) → DotsSpaced (fixDots l)
  | [] => by simp [fixDots, DotsSpaced]
  | [c] => by simp [fixDots, DotsSpaced]
  | c1 :: c2 :: rest => by
    have ih := fixDots_chain (c2 :: rest)
    have hh := fixDots_head c2 rest
    unfold DotsSpaced at ih ⊢
    by_cases h : (c1 = '.' ∧ upperChar c2 = true)
    · rw [fixDots, if_pos h]
      rw [List.chain'_cons']
      constructor
      · intro y hy
        rw [List.head?_cons] at hy
        cases hy
        intro hcon
        exact absurd hcon.2 (by decide)
      · rw [List.chain'_cons']
        refine ⟨?_, ih⟩
        intro y hy hcon
        exact absurd hcon.1 (by decide)
    · rw [fixDots, if_neg h]
      rw [List.chain'_cons']
      refine ⟨?_, ih⟩
      intro y hy hcon
      rw [hh] at hy
      cases hy
      exact h hcon

theorem format_captions_item_ok (data : List Segment) (texts : List Str)
    (hne : data ≠ []) (h : mapE getItemText data = .ok texts) :
    format_captions data = .ok (formatCore texts) := by
  unfold format_captions
  split
  · rename_i hemp
    rw [isEmpty_false_of_ne_nil hne] at hemp
    exact Bool.noConfusion hemp
  · split
    · rename_i texts2 heq
      rw [h] at heq
      cases heq
      rfl
    · rename_i e heq
      rw [h] at heq
      exact Except.noConfusion heq

/-- C5.  With texts extracted in order, format_captions works on the
single-space concatenation of the texts: the result is the stated
pipeline (collapse whitespace, then repair boundaries, then split into
sentences, then group); the collapse leaves only single spaces with no
neighbouring whitespace while keeping every non-whitespace character, and
after the repair no period directly precedes an upper case letter. -/
theorem spec_c5 : ∀ (data : List Segment) (texts : List Str),
    data ≠ [] → mapE getItemText data = .ok texts →
    (format_captions data = .ok (joinWith ("\n\n".data)
      (((chunks5 (sentSplit (fixDots (collapseWs (joinWith (" ".data) texts))))).map
        (joinWith (" ".data))).filter (fun par => !par.isEmpty)))) ∧
    WsCollapsed (collapseWs (joinWith (" ".data) texts)) ∧
    ((collapseWs (joinWith (" ".data) texts)).filter (fun c => !wsChar c) =
      (joinWith (" ".data) texts).filter (fun c => !wsChar c)) ∧
    DotsSpaced (fixDots (collapseWs (joinWith (" ".data) texts))) := by
  intro data texts hne h
  refine ⟨format_captions_item_ok data texts hne h, collapseWs_collapsed _,
    collapseWsAux_nonWs _ false, fixDots_chain _⟩

/-- Witness for C5: one segment whose text has a double space and a
period glued to an upper case letter. -/
theorem spec_c5_witness :
    ([Segment.dictSeg [("text".data, "a.  Bc.De".data)]] ≠ ([] : List Segment)) ∧
    mapE getItemText [Segment.dictSeg [("text".data, "a.  Bc.De".data)]] =
      .ok ["a.  Bc.De".data] ∧
    format_captions [Segment.dictSeg [("text".data, "a.  Bc.De".data)]] =
      .ok ("a. Bc. De".data) := by
  refine ⟨by simp, rfl, ?_⟩
  exact (spec_c5 [Segment.dictSeg [("text".data, "a.  Bc.De".data)]]
    ["a.  Bc.De".data] (by simp) rfl).1

theorem chunks5_flatten : (l : List Str) → (chunks5 l).flatten = l
  | [] => rfl
  | [a] => rfl
  | [a, b] => rfl
  | [a, b, c] => rfl
  | [a, b, c, d] => rfl
  | a :: b :: c :: d :: e :: rest => by
    rw [chunks5, List.flatten_cons, chunks5_flatten rest]
    rfl

theorem chunks5_length_le : (l : List Str) → ∀ ch ∈ chunks5 l, ch.length ≤ 5
  | [] => by simp [chunks5]
  | [a] => by simp [chunks5]
  | [a, b] => by simp [chunks5]
  | [a, b, c] => by simp [chunks5]
  | [a, b, c, d] => by simp [chunks5]
  | a :: b :: c :: d :: e :: rest => by
    intro ch hch
    rw [chunks5] at hch
    rcases List.mem_cons.mp hch with h | h
    · subst h; simp
    · exact chunks5_length_le rest ch h

theorem chunks5_ne_nil : (l : List Str) → ∀ ch ∈ chunks5 l, ch ≠ []
  | [] => by simp [chunks5]
  | [a] => by simp [chunks5]
  | [a, b] => by simp [chunks5]
  | [a, b, c] => by simp [chunks5]
  | [a, b, c, d] => by simp [chunks5]
  | a :: b :: c :: d :: e :: rest => by
    intro ch hch
    rw [chunks5] at hch
    rcases List.mem_cons.mp hch with h | h
    · subst h; simp
    · exact chunks5_ne_nil rest ch h

theorem chunks5_subset : (l : List Str) → ∀ ch ∈ chunks5 l, ∀ x ∈ ch, x ∈ l
  | [] => by simp [chunks5]
  | [a] => by
    intro ch hch x hx
    rw [show chunks5 [a] = [[a]] from rfl] at hch
    rcases List.mem_cons.mp hch with h | h
    · subst h; exact hx
    · exact absurd h (List.not_mem_nil ch)
  | [a, b] => by
    intro ch hch x hx
    rw [show chunks5 [a, b] = [[a, b]] from rfl] at hch
    rcases List.mem_cons.mp hch with h | h
    · subst h; exact hx
    · exact absurd h (List.not_mem_nil ch)
  | [a, b, c] => by
    intro ch hch x hx
    rw [show chunks5 [a, b, c] = [[a, b, c]] from rfl] at hch
    rcases List.mem_cons.mp hch with h | h
    · subst h; exact hx
    · exact absurd h (List.not_mem_nil ch)
  | [a, b, c, d] => by
    intro ch hch x hx
    rw [show chunks5 [a, b, c, d] = [[a, b, c, d]] from rfl] at hch
    rcases List.mem_cons.mp hch with h | h
    · subst h; exact hx
    · exact absurd h (List.not_mem_nil ch)
  | a :: b :: c :: d :: e :: rest => by
    intro ch hch x hx
    rw [chunks5] at hch
    rcases List.mem_cons.mp hch with h | h
    · subst h
      simp only [List.mem_cons, List.not_mem_nil, or_false] at hx
      rcases hx with rfl | rfl | rfl | rfl | rfl <;> simp
    · have := chunks5_subset rest ch h x hx
      exact List.mem_cons_of_mem a (List.mem_cons_of_mem b (List.mem_cons_of_mem c
        (List.mem_cons_of_mem d (List.mem_cons_of_mem e this))))

theorem chunks5_dropLast_length : (l : List Str) → ∀ ch ∈ (chunks5 l).dropLast, ch.length = 5
  | [] => by simp [chunks5]
  | [a] => by simp [chunks5]
  | [a, b] => by simp [chunks5]
  | [a, b, c] => by simp [chunks5]
  | [a, b, c, d] => by simp [chunks5]
  | a :: b :: c :: d :: e :: rest => by
    intro ch hch
    rw [chunks5] at hch
    cases hr : chunks5 rest with
    | nil => rw [hr] at hch; simp at hch
    | cons y ys =>
      rw [hr, List.dropLast_cons₂] at hch
      rcases List.mem_cons.mp hch with h | h
      · subst h; simp
      · rw [← hr] at h
        exact chunks5_dropLast_length rest ch h

theorem joinWith_ne_nil (sep s : Str) (rest : List Str) (h : s ≠ []) :
    joinWith sep (s :: rest) ≠ [] := by
  cases rest with
  | nil => exact h
  | cons r rs =>
    show s ++ sep ++ joinWith sep (r :: rs) ≠ []
    simp [List.append_eq_nil, h]

/-- C3.  When no split sentence is empty, the filter in format_captions
keeps every group, so the output is exactly the sentences grouped in
fives and joined with a blank line; the conjuncts about chunks5 say the
groups are consecutive, in order (their concatenation is the sentence
list), of at most five sentences, and of exactly five except possibly the
last. -/
theorem spec_c3 : ∀ (data : List Segment) (texts : List Str),
    data ≠ [] → mapE getItemText data = .ok texts →
    (∀ s ∈ sentSplit (fixDots (collapseWs (joinWith (" ".data) texts))), s ≠ []) →
    (format_captions data = .ok (joinWith ("\n\n".data)
      ((chunks5 (sentSplit (fixDots (collapseWs (joinWith (" ".data) texts))))).map
        (joinWith (" ".data))))) ∧
    (∀ l : List Str, (chunks5 l).flatten = l) ∧
    (∀ l : List Str, ∀ ch ∈ chunks5 l, ch.length ≤ 5) ∧
    (∀ l : List Str, ∀ ch ∈ (chunks5 l).dropLast, ch.length = 5) := by
  intro data texts hne h hs
  refine ⟨?_, chunks5_flatten, chunks5_length_le, chunks5_dropLast_length⟩
  rw [format_captions_item_ok data texts hne h]
  refine congrArg Except.ok (congrArg (joinWith ("\n\n".data)) (List.filter_eq_self.mpr ?_))
  intro par hpar
  rcases List.mem_map.mp hpar with ⟨ch, hch, rfl⟩
  have hchne : ch ≠ [] := chunks5_ne_nil _ ch hch
  rcases List.exists_cons_of_ne_nil hchne with ⟨s0, ch', rfl⟩
  have hs0 : s0 ≠ [] := hs s0 (chunks5_subset _ _ hch s0 (by simp))
  have hj := joinWith_ne_nil (" ".data) s0 ch' hs0
  simp only [Bool.not_eq_true']
  rw [← Bool.not_eq_true, List.isEmpty_iff]
  exact hj

/-- Witness for C3: twelve one-sentence segments produce three paragraphs
of five, five and two sentences, joined by blank lines. -/
theorem spec_c3_witness :
    (List.replicate 12 (Segment.dictSeg [("text".data, "Sentence here.".data)]) ≠
      ([] : List Segment)) ∧
    mapE getItemText (List.replicate 12 (Segment.dictSeg [("text".data, "Sentence here.".data)])) =
      .ok (List.replicate 12 ("Sentence here.".data)) ∧
    (∀ s ∈ sentSplit (fixDots (collapseWs (joinWith (" ".data)
        (List.replicate 12 ("Sentence here.".data))))), s ≠ []) ∧
    ((chunks5 (sentSplit (fixDots (collapseWs (joinWith (" ".data)
        (List.replicate 12 ("Sentence here.".data))))))).map List.length = [5, 5, 2]) ∧
    format_captions (List.replicate 12 (Segment.dictSeg [("text".data, "Sentence here.".data)])) =
      .ok (("Sentence here. Sentence here. Sentence here. Sentence here. Sentence here.\n\nSentence here. Sentence here. Sentence here. Sentence here. Sentence here.\n\nSentence here. Sentence here.".data)) := by
  refine ⟨by decide, by rfl, by decide, by rfl, ?_⟩
  exact (spec_c3 (List.replicate 12 (Segment.dictSeg [("text".data, "Sentence here.".data)]))
    (List.replicate 12 ("Sentence here.".data)) (by decide) rfl (by decide)).1

/-- One transcript track: `transcript.fetch()` may raise. -/
structure Transcript where
  fetch : Except PyExc (List Segment)

/-- The object returned by list_transcripts:
`find_transcript(language_codes)` may raise. -/
structure TranscriptList where
  find_transcript : List Str → Except PyExc Transcript

/-- The external transcript API:
`YouTubeTranscriptApi.list_transcripts(video_id)` may raise, among other
conditions NoTranscriptFound, TranscriptsDisabled and VideoUnavailable. -/
structure TranscriptApi where
  list_transcripts : Str → Except PyExc TranscriptList

/-- The fetch sequence of extract_captions: list the transcripts, try
`find_transcript(["en"])` under a bare except whose fallback is
`find_transcript(["en-US", "en-GB"])`, then fetch.  Every uncaught
exception propagates to the enclosing try of extract_captions. -/
def fetchPipeline (api : TranscriptApi) (vid : Str) : Except PyExc (List Segment) :=
  match api.list_transcripts vid with
  | .error e => .error e
  | .ok tl =>
    match (match tl.find_transcript [("en".data)] with
           | .ok t => Except.ok t
           | .error _ => tl.find_transcript [("en-US".data), ("en-GB".data)]) with
    | .error e => .error e
    | .ok t => t.fetch

/-- caption_service.extract_captions: the whole body runs inside a try
whose except clauses (NoTranscriptFound, TranscriptsDisabled,
VideoUnavailable, Exception) each return None; a missing or empty video
id also returns None. -/
def extract_captions (api : TranscriptApi) (url : Str) : Option (List Segment) :=
  match extract_video_id url with
  | .error _ => none
  | .ok none => none
  | .ok (some vid) =>
    if vid.isEmpty then none
    else
      match fetchPipeline api vid with
      | .error _ => none
      | .ok capData => some capData

/-- An HTTP response of the endpoint: a 200 JSON success payload or an
error status with the error and message fields of the JSON body. -/
inductive Resp where
  | success (captions : Str) (videoUrl : Str) (length : Nat)
  | err (status : Nat) (error : Str) (message : Str)
deriving DecidableEq

def Resp.status : Resp → Nat
  | .success _ _ _ => 200
  | .err s _ _ => s

def missingErr : Str := ("Missing YouTube URL".data)
def missingMsg : Str := ("Please provide a valid YouTube URL in the request body".data)
def invalidErr : Str := ("Invalid YouTube URL".data)
def invalidMsg : Str :=
  ("The provided URL does not appear to be a valid YouTube video URL".data)
def unavailErr : Str := ("Captions unavailable".data)
def unavailMsg : Str :=
  ("No captions/subtitles available for this video or they are disabled".data)
def serverErr : Str := ("Server error".data)
def serverMsgPrefix : Str := ("An error occurred while processing the captions: ".data)

/-- The rendering `str(e)` of an exception, abstracted per condition; it
only feeds the 500 message, which no claim inspects. -/
def pyExcText : PyExc → Str
  | .typeError => ("TypeError".data)
  | .keyError => ("KeyError".data)
  | .attrError => ("AttributeError".data)
  | .valueError => ("ValueError".data)
  | .noTranscriptFound => ("NoTranscriptFound".data)
  | .transcriptsDisabled => ("TranscriptsDisabled".data)
  | .videoUnavailable => ("VideoUnavailable".data)
  | .otherError => ("Exception".data)

/-- app.get_captions: the POST /api/extract-captions handler.  The
request body `request.get_json()` is modelled as None for an absent or
null body and as an association list for a JSON object; `not data or
"url" not in data` covers None, the empty object and a missing field.
After validation, a missing or empty caption result gives 404, otherwise
the formatted text is returned; an exception while formatting would give
the 500 passthrough. -/
def get_captions (api : TranscriptApi) : Option (List (Str × Str)) → Resp
  | none => .err 400 missingErr missingMsg
  | some fields =>
    if fields.isEmpty then .err 400 missingErr missingMsg
    else
      match lookupField fields ("url".data) with
      | none => .err 400 missingErr missingMsg
      | some url =>
        if validate_youtube_url url then
          match extract_captions api url with
          | none => .err 404 unavailErr unavailMsg
          | some raw =>
            if raw.isEmpty then .err 404 unavailErr unavailMsg
            else
              match format_captions raw with
              | .ok text => .success text url text.length
              | .error e => .err 500 serverErr (serverMsgPrefix ++ pyExcText e)
        else .err 400 invalidErr invalidMsg

theorem get_captions_url (api : TranscriptApi) (fields : List (Str × Str)) (url : Str)
    (hne : fields ≠ []) (hlook : lookupField fields ("url".data) = some url) :
    get_captions api (some fields) =
      (if validate_youtube_url url then
        (match extract_captions api url with
         | none => Resp.err 404 unavailErr unavailMsg
         | some raw =>
           if raw.isEmpty then Resp.err 404 unavailErr unavailMsg
           else
             match format_captions raw with
             | .ok text => Resp.success text url text.length
             | .error e => Resp.err 500 serverErr (serverMsgPrefix ++ pyExcText e))
      else Resp.err 400 invalidErr invalidMsg) := by
  simp only [get_captions]
  rw [if_neg (by rw [isEmpty_false_of_ne_nil hne]; exact Bool.noConfusion), hlook]

/-- C6.  When the transcript fetch fails with one of the three distinct
conditions (no transcript found, transcripts disabled, video unavailable),
extract_captions returns None instead of propagating the exception, and a
request that reached the fetch is answered 404, not 500. -/
theorem spec_c6 : ∀ (api : TranscriptApi) (url vid : Str) (e : PyExc)
    (fields : List (Str × Str)),
    (e = PyExc.noTranscriptFound ∨ e = PyExc.transcriptsDisabled ∨
      e = PyExc.videoUnavailable) →
    extract_video_id url = .ok (some vid) →
    vid ≠ [] →
    fetchPipeline api vid = .error e →
    extract_captions api url = none ∧
    (lookupField fields ("url".data) = some url →
      validate_youtube_url url = true →
      get_captions api (some fields) = .err 404 unavailErr unavailMsg ∧
      (get_captions api (some fields)).status = 404) := by
  intro api url vid e fields _ hvid hvne hfail
  have hcap : extract_captions api url = none := by
    unfold extract_captions
    split
    all_goals try rfl
    rename_i vid2 heq
    rw [hvid] at heq
    cases Option.some.inj (Except.ok.inj heq)
    rw [if_neg (by rw [isEmpty_false_of_ne_nil hvne]; exact Bool.noConfusion), hfail]
  refine ⟨hcap, ?_⟩
  intro hlook hval
  have hfne : fields ≠ [] := by
    intro h
    subst h
    exact Option.noConfusion hlook
  have hmain : get_captions api (some fields) = .err 404 unavailErr unavailMsg := by
    rw [get_captions_url api fields url hfne hlook, if_pos hval, hcap]
  exact ⟨hmain, by simp [hmain, Resp.status]⟩

/-- The api whose transcript listing always fails with NoTranscriptFound,
used to instantiate the endpoint theorems. -/
def apiNone : TranscriptApi := ⟨fun _ => .error PyExc.noTranscriptFound⟩

/-- Witness for C6: a fetch failing with NoTranscriptFound on a valid URL
gives None and the 404 response. -/
theorem spec_c6_witness :
    extract_video_id ("https://youtu.be/abc".data) = .ok (some ("abc".data)) ∧
    fetchPipeline apiNone ("abc".data) = .error PyExc.noTranscriptFound ∧
    extract_captions apiNone ("https://youtu.be/abc".data) = none ∧
    get_captions apiNone (some [(("url".data), ("https://youtu.be/abc".data))]) =
      .err 404 unavailErr unavailMsg := by
  have h := spec_c6 apiNone ("https://youtu.be/abc".data) ("abc".data)
    PyExc.noTranscriptFound [(("url".data), ("https://youtu.be/abc".data))]
    (Or.inl rfl) rfl (by decide) rfl
  exact ⟨rfl, rfl, h.1, (h.2 rfl (by decide)).1⟩

/-- C7.  A missing body, an empty object or a missing url field, and a
url failing validation, are each answered 400 with the error/message
pair, and the response does not depend on the transcript api: no fetch
is reached. -/
theorem spec_c7 : ∀ (api : TranscriptApi) (data : Option (List (Str × Str))),
    ((data = none ∨ data = some [] ∨
      (∃ fields, data = some fields ∧ lookupField fields ("url".data) = none)) →
      get_captions api data = .err 400 missingErr missingMsg ∧
      ∀ api2, get_captions api2 data = get_captions api data) ∧
    (∀ fields url, data = some fields → lookupField fields ("url".data) = some url →
      validate_youtube_url url = false →
      get_captions api data = .err 400 invalidErr invalidMsg ∧
      ∀ api2, get_captions api2 data = get_captions api data) := by
  intro api data
  constructor
  · intro hmiss
    have key : ∀ apix : TranscriptApi,
        get_captions apix data = .err 400 missingErr missingMsg := by
      intro apix
      rcases hmiss with rfl | rfl | ⟨fields, rfl, hlook⟩
      · rfl
      · rfl
      · cases fields with
        | nil => rfl
        | cons a l =>
          simp only [get_captions]
          rw [if_neg (by exact Bool.noConfusion), hlook]
    exact ⟨key api, fun api2 => (key api2).trans (key api).symm⟩
  · intro fields url hdata hlook hval
    subst hdata
    have hfne : fields ≠ [] := by
      intro h
      subst h
      exact Option.noConfusion hlook
    have key : ∀ apix : TranscriptApi,
        get_captions apix (some fields) = .err 400 invalidErr invalidMsg := by
      intro apix
      rw [get_captions_url apix fields url hfne hlook,
        if_neg (by rw [hval]; exact Bool.noConfusion)]
    exact ⟨key api, fun api2 => (key api2).trans (key api).symm⟩

/-- Witness for C7: a body without the url field and a non-YouTube URL
are both answered 400. -/
theorem spec_c7_witness :
    get_captions apiNone none = .err 400 missingErr missingMsg ∧
    get_captions apiNone (some [(("url".data), ("https://vimeo.com/123".data))]) =
      .err 400 invalidErr invalidMsg := by
  refine ⟨((spec_c7 apiNone none).1 (Or.inl rfl)).1, ?_⟩
  exact ((spec_c7 apiNone (some [(("url".data), ("https://vimeo.com/123".data))])).2
    [(("url".data), ("https://vimeo.com/123".data))] ("https://vimeo.com/123".data)
    rfl rfl (by decide)).1

theorem wordChar_ne (c d : Char) (h : wordChar c = true) (hd : wordChar d = false) : c ≠ d := by
  intro he
  rw [he] at h
  rw [h] at hd
  exact Bool.noConfusion hd

theorem wordChar_cases (c : Char) (h : wordChar c = true) :
    48 ≤ c.toNat ∧ c.toNat ≤ 57 ∨ 65 ≤ c.toNat ∧ c.toNat ≤ 90 ∨
    97 ≤ c.toNat ∧ c.toNat ≤ 122 ∨ c = '_' ∨ c = '-' := by
  simp only [wordChar, Bool.or_eq_true, Bool.and_eq_true, decide_eq_true_eq, beq_iff_eq] at h
  tauto

theorem wordChar_ascii (c : Char) (h : wordChar c = true) : c.toNat ≤ 127 := by
  rcases wordChar_cases c h with ⟨_, h2⟩ | ⟨_, h2⟩ | ⟨_, h2⟩ | rfl | rfl
  · omega
  · omega
  · omega
  · decide
  · decide

theorem splitAtFirst_append (t : Char) (l1 : Str) (h : ∀ c ∈ l1, c ≠ t) (l2 : Str) :
    splitAtFirst t (l1 ++ l2) =
      (match splitAtFirst t l2 with
       | some (a, b) => some (l1 ++ a, b)
       | none => none) := by
  induction l1 with
  | nil =>
    rw [List.nil_append]
    cases hs : splitAtFirst t l2 with
    | none => rfl
    | some ab => cases ab with | mk a b => rfl
  | cons c cs ih =>
    have hc : c ≠ t := h c (by simp)
    rw [List.cons_append, splitAtFirst, if_neg hc, ih (fun x hx => h x (by simp [hx]))]
    cases hs : splitAtFirst t l2 with
    | none => rfl
    | some ab => cases ab with | mk a b => rfl

theorem beforeFirst_append (t : Char) (l1 : Str) (h : ∀ c ∈ l1, c ≠ t) (l2 : Str) :
    beforeFirst t (l1 ++ l2) = l1 ++ beforeFirst t l2 := by
  unfold beforeFirst
  rw [splitAtFirst_append t l1 h l2]
  cases hs : splitAtFirst t l2 with
  | none => rfl
  | some ab => cases ab with | mk a b => rfl

theorem afterFirst_append (t : Char) (l1 : Str) (h : ∀ c ∈ l1, c ≠ t) (l2 : Str) :
    afterFirst t (l1 ++ l2) = afterFirst t l2 := by
  unfold afterFirst
  rw [splitAtFirst_append t l1 h l2]
  cases hs : splitAtFirst t l2 with
  | none => rfl
  | some ab => cases ab with | mk a b => rfl

theorem beforeFirst_cons1 (t a : Char) (ha : a ≠ t) (l : Str) :
    beforeFirst t (a :: l) = a :: beforeFirst t l := by
  have h := beforeFirst_append t [a] (by
    intro x hx
    rcases List.mem_cons.mp hx with rfl | hx
    · exact ha
    · exact absurd hx (List.not_mem_nil x)) l
  simpa using h

theorem beforeFirst_cons2 (t a b : Char) (ha : a ≠ t) (hb : b ≠ t) (l : Str) :
    beforeFirst t (a :: b :: l) = a :: b :: beforeFirst t l := by
  rw [beforeFirst_cons1 t a ha, beforeFirst_cons1 t b hb]

theorem beforeFirst_cons_self (t : Char) (l : Str) : beforeFirst t (t :: l) = [] := by
  simp [beforeFirst, splitAtFirst]

theorem afterFirst_cons_self (t : Char) (l : Str) : afterFirst t (t :: l) = l := by
  simp [afterFirst, splitAtFirst]

theorem splitAtFirst_some (t : Char) :
    ∀ (l a b : Str), splitAtFirst t l = some (a, b) → l = a ++ t :: b ∧ t ∉ a := by
  intro l
  induction l with
  | nil => intro a b h; exact Option.noConfusion h
  | cons c rest ih =>
    intro a b h
    rw [splitAtFirst] at h
    by_cases hc : c = t
    · rw [if_pos hc] at h
      simp only [Option.some.injEq, Prod.mk.injEq] at h
      obtain ⟨h1, h2⟩ := h
      subst h1
      subst h2
      subst hc
      exact ⟨rfl, List.not_mem_nil c⟩
    · rw [if_neg hc] at h
      cases hs : splitAtFirst t rest with
      | none => rw [hs] at h; exact Option.noConfusion h
      | some ab =>
        cases ab with
        | mk a2 b2 =>
          rw [hs] at h
          simp only [Option.some.injEq, Prod.mk.injEq] at h
          obtain ⟨h1, h2⟩ := h
          subst h1
          subst h2
          obtain ⟨heq, hnm⟩ := ih a2 b2 hs
          constructor
          · rw [List.cons_append, ← heq]
          · intro hmem
            rcases List.mem_cons.mp hmem with h0 | h0
            · exact hc h0.symm
            · exact hnm h0

theorem splitAtLast_none (t : Char) : ∀ l : Str, splitAtLast t l = none → t ∉ l := by
  intro l
  induction l with
  | nil => intro _ hmem; exact List.not_mem_nil t hmem
  | cons c rest ih =>
    intro h
    rw [splitAtLast] at h
    cases hs : splitAtLast t rest with
    | some ab =>
      cases ab with
      | mk a b => rw [hs] at h; exact Option.noConfusion h
    | none =>
      rw [hs] at h
      by_cases hc : c = t
      · rw [if_pos hc] at h; exact Option.noConfusion h
      · intro hmem
        rcases List.mem_cons.mp hmem with h0 | h0
        · exact hc h0.symm
        · exact ih hs h0

theorem splitAtLast_some (t : Char) :
    ∀ (l a b : Str), splitAtLast t l = some (a, b) → l = a ++ t :: b ∧ t ∉ b := by
  intro l
  induction l with
  | nil => intro a b h; exact Option.noConfusion h
  | cons c rest ih =>
    intro a b h
    rw [splitAtLast] at h
    cases hs : splitAtLast t rest with
    | some ab =>
      cases ab with
      | mk a2 b2 =>
        rw [hs] at h
        simp only [Option.some.injEq, Prod.mk.injEq] at h
        obtain ⟨h1, h2⟩ := h
        subst h1
        subst h2
        obtain ⟨heq, hnm⟩ := ih a2 b2 hs
        exact ⟨by rw [List.cons_append, ← heq], hnm⟩
    | none =>
      rw [hs] at h
      by_cases hc : c = t
      · rw [if_pos hc] at h
        simp only [Option.some.injEq, Prod.mk.injEq] at h
        obtain ⟨h1, h2⟩ := h
        subst h1
        subst h2
        subst hc
        exact ⟨rfl, splitAtLast_none c rest hs⟩
      · rw [if_neg hc] at h
        exact Option.noConfusion h

theorem splitParams_slash (c : Char) (t : Str) (hc1 : c ≠ '/') (hc2 : c ≠ ';') :
    ∃ t2, (splitParams ('/' :: c :: t)).1 = '/' :: c :: t2 := by
  unfold splitParams
  cases hsl : splitAtLast '/' ('/' :: c :: t) with
  | none =>
    exact absurd (List.mem_cons_self '/' (c :: t)) (splitAtLast_none '/' _ hsl)
  | some ab =>
    cases ab with
    | mk a b =>
      obtain ⟨heq, hnb⟩ := splitAtLast_some '/' _ a b hsl
      cases a with
      | nil =>
        rw [List.nil_append] at heq
        injection heq with h1 h2
        subst h2
        cases hsf : splitAtFirst ';' (c :: t) with
        | none =>
          refine ⟨t, ?_⟩
          show (match splitAtFirst ';' (c :: t) with
                | some (b1, b2) => (([] : Str) ++ '/' :: b1, b2)
                | none => ('/' :: c :: t, ([] : Str))).1 = '/' :: c :: t
          rw [hsf]
        | some xy =>
          cases xy with
          | mk x y =>
            obtain ⟨heq2, hnx⟩ := splitAtFirst_some ';' (c :: t) x y hsf
            cases x with
            | nil =>
              rw [List.nil_append] at heq2
              injection heq2 with h3 h4
              exact absurd h3 hc2
            | cons x0 xs =>
              rw [List.cons_append] at heq2
              injection heq2 with h3 h4
              subst h3
              refine ⟨xs, ?_⟩
              show (match splitAtFirst ';' (c :: t) with
                    | some (b1, b2) => (([] : Str) ++ '/' :: b1, b2)
                    | none => ('/' :: c :: t, ([] : Str))).1 = '/' :: c :: xs
              rw [hsf]
              rfl
      | cons a0 as =>
        rw [List.cons_append] at heq
        injection heq with h1 h2
        cases as with
        | nil =>
          rw [List.nil_append] at h2
          injection h2 with h3 h4
          exact absurd h3 hc1
        | cons a1 as2 =>
          rw [List.cons_append] at h2
          injection h2 with h3 h4
          subst h1
          subst h3
          cases hsf : splitAtFirst ';' b with
          | none =>
            refine ⟨t, ?_⟩
            show (match splitAtFirst ';' b with
                  | some (b1, b2) => (('/' :: c :: as2 : Str) ++ '/' :: b1, b2)
                  | none => ('/' :: c :: t, ([] : Str))).1 = '/' :: c :: t
            rw [hsf]
          | some xy =>
            cases xy with
            | mk x y =>
              refine ⟨as2 ++ '/' :: x, ?_⟩
              show (match splitAtFirst ';' b with
                    | some (b1, b2) => (('/' :: c :: as2 : Str) ++ '/' :: b1, b2)
                    | none => ('/' :: c :: t, ([] : Str))).1 = '/' :: c :: (as2 ++ '/' :: x)
              rw [hsf]
              rfl

theorem splitAll_ne_nil (t : Char) : ∀ l : Str, ∃ s ss, splitAll t l = s :: ss := by
  intro l
  induction l with
  | nil => exact ⟨[], [], rfl⟩
  | cons c rest ih =>
    obtain ⟨s, ss, hs⟩ := ih
    by_cases hc : c = t
    · exact ⟨[], splitAll t rest, by rw [splitAll, if_pos hc]⟩
    · exact ⟨c :: s, ss, by rw [splitAll, if_neg hc, hs]⟩

theorem splitAll_cons_ne (t c : Char) (l : Str) (hc : c ≠ t) (s : Str) (ss : List Str)
    (h : splitAll t l = s :: ss) : splitAll t (c :: l) = (c :: s) :: ss := by
  rw [splitAll, if_neg hc, h]

theorem utf8Decode_ascii_cons (b : Nat) (hb : b ≤ 127) (rest : List Nat) :
    utf8Decode (b :: rest) = Char.ofNat b :: utf8Decode rest := by
  rw [utf8Decode.eq_def]
  simp [hb]

theorem pctBytes_cons_plain (c : Char) (hc : c ≠ '%') (rest : Str) :
    pctBytes (c :: rest) = utf8Encode c ++ pctBytes rest := by
  rw [pctBytes.eq_def]
  simp [hc]

theorem qsValues_head (c : Char) (tail : Str)
    (hamp : c ≠ '&') (hplus : c ≠ '+') (hpct : c ≠ '%') (hascii : c.toNat ≤ 127) :
    ∃ vrest pairs, qsValues ('v' :: '=' :: c :: tail) ("v".data) =
      (Char.ofNat c.toNat :: vrest) :: pairs := by
  obtain ⟨s, ss, hs⟩ := splitAll_ne_nil '&' tail
  have h1 : splitAll '&' ('v' :: '=' :: c :: tail) = ('v' :: '=' :: c :: s) :: ss :=
    splitAll_cons_ne '&' 'v' _ (by decide) _ _
      (splitAll_cons_ne '&' '=' _ (by decide) _ _
        (splitAll_cons_ne '&' c _ hamp _ _ hs))
  have hval : unquote (plusToSpace (c :: s)) =
      Char.ofNat c.toNat :: utf8Decode (pctBytes (plusToSpace s)) := by
    show utf8Decode (pctBytes (List.map (fun x => if x = '+' then ' ' else x) (c :: s))) = _
    rw [List.map_cons, if_neg hplus]
    rw [pctBytes_cons_plain c hpct]
    rw [show utf8Encode c = [c.toNat] from by
      simp only [utf8Encode]
      rw [if_pos (by omega)]]
    rw [List.singleton_append]
    rw [utf8Decode_ascii_cons c.toNat hascii]
    rfl
  have hF : qsPair ('v' :: '=' :: c :: s) =
      some (("v".data), Char.ofNat c.toNat :: utf8Decode (pctBytes (plusToSpace s))) := by
    unfold qsPair
    rw [if_neg (by simp)]
    rw [show splitAtFirst '=' ('v' :: '=' :: c :: s) = some (['v'], c :: s) from rfl]
    show (if (c :: s) = ([] : Str) then none
          else some (unquote (plusToSpace ['v']), unquote (plusToSpace (c :: s)))) = _
    rw [if_neg (by simp), hval]
    rfl
  refine ⟨utf8Decode (pctBytes (plusToSpace s)),
    (List.filterMap qsPair ss).filterMap (qsSelect ("v".data)), ?_⟩
  unfold qsValues parse_qsl
  rw [h1, List.filterMap_cons, hF]
  rfl

theorem evi_be_base (url : Str) (p : ParseResult) (c : Char)
    (hp : urlparseE url = .ok p)
    (hnl : containsSub ("youtu.be".data) p.netloc = true)
    (hpath : ∃ t2, p.path = '/' :: c :: t2) (hc1 : c ≠ '/') :
    ∃ id, extract_video_id url = .ok (some id) ∧ id ≠ [] := by
  rw [extract_video_id_ok url p hp, if_pos hnl]
  obtain ⟨t2, hpt⟩ := hpath
  rw [hpt]
  refine ⟨c :: t2, ?_, by simp⟩
  rw [List.dropWhile_cons_of_pos (by simp), List.dropWhile_cons_of_neg (by simp [hc1])]

theorem evi_com_base (url : Str) (p : ParseResult) (c : Char)
    (hp : urlparseE url = .ok p)
    (hbe : containsSub ("youtu.be".data) p.netloc = false)
    (hcom : containsSub ("youtube.com".data) p.netloc = true)
    (hq : ∃ t, p.query = 'v' :: '=' :: c :: t)
    (hamp : c ≠ '&') (hplus : c ≠ '+') (hpct : c ≠ '%') (hascii : c.toNat ≤ 127) :
    ∃ id, extract_video_id url = .ok (some id) ∧ id ≠ [] := by
  rw [extract_video_id_ok url p hp, if_neg (by simp [hbe]), if_pos hcom]
  obtain ⟨t, hqt⟩ := hq
  rw [hqt]
  obtain ⟨vrest, pairs, hqs⟩ := qsValues_head c t hamp hplus hpct hascii
  rw [hqs]
  exact ⟨Char.ofNat c.toNat :: vrest, rfl, by simp⟩

theorem evi_be_of_split (url : Str) (s : SplitResult) (c : Char) (t : Str)
    (hs : urlsplitE url = .ok s) (hpath : s.path = '/' :: c :: t)
    (hnl : containsSub ("youtu.be".data) s.netloc = true)
    (hc1 : c ≠ '/') (hc2 : c ≠ ';') :
    ∃ id, extract_video_id url = .ok (some id) ∧ id ≠ [] := by
  have hp := urlparseE_ok url s hs
  by_cases hpar : s.scheme ∈ usesParams ∧ s.path.contains ';'
  · rw [if_pos hpar] at hp
    rw [hpath] at hp
    obtain ⟨t2, hsp⟩ := splitParams_slash c t hc1 hc2
    rw [hsp] at hp
    exact evi_be_base url _ c hp hnl ⟨t2, rfl⟩ hc1
  · rw [if_neg hpar] at hp
    exact evi_be_base url _ c hp hnl ⟨t, hpath⟩ hc1

theorem evi_com_of_split (url : Str) (s : SplitResult) (c : Char)
    (hs : urlsplitE url = .ok s)
    (hbe : containsSub ("youtu.be".data) s.netloc = false)
    (hcom : containsSub ("youtube.com".data) s.netloc = true)
    (hnosemi : s.path.contains ';' = false)
    (hq : ∃ t, s.query = 'v' :: '=' :: c :: t)
    (hamp : c ≠ '&') (hplus : c ≠ '+') (hpct : c ≠ '%') (hascii : c.toNat ≤ 127) :
    ∃ id, extract_video_id url = .ok (some id) ∧ id ≠ [] := by
  have hp := urlparseE_ok url s hs
  rw [if_neg (fun hand => by rw [hnosemi] at hand; exact Bool.noConfusion hand.2)] at hp
  exact evi_com_base url _ c hp hbe hcom hq hamp hplus hpct hascii

theorem split_be (c : Char) (rest : Str) (hwc : wordChar c = true) :
    ∀ pre, (pre = "http://youtu.be/".data ∨ pre = "https://youtu.be/".data ∨
            pre = "http://www.youtu.be/".data ∨ pre = "https://www.youtu.be/".data) →
    ∃ s : SplitResult, urlsplitE (pre ++ c :: rest) = .ok s ∧
      containsSub ("youtu.be".data) s.netloc = true ∧
      ∃ t, s.path = '/' :: c :: t := by
  have hkeep : (!(c == '\t' || c == '\r' || c == '\n')) = true := by
    have h1 := wordChar_ne c '\t' hwc (by decide)
    have h2 := wordChar_ne c '\r' hwc (by decide)
    have h3 := wordChar_ne c '\n' hwc (by decide)
    simp [h1, h2, h3]
  have hq2 : c ≠ '?' := wordChar_ne c '?' hwc (by decide)
  have hq3 : c ≠ '#' := wordChar_ne c '#' hwc (by decide)
  have hbf : beforeFirst '#' ('/' :: c :: sanitizeUrl rest) =
      '/' :: c :: beforeFirst '#' (sanitizeUrl rest) :=
    beforeFirst_cons2 '#' '/' c (by decide) hq3 _
  have hbq : beforeFirst '?' ('/' :: c :: beforeFirst '#' (sanitizeUrl rest)) =
      '/' :: c :: beforeFirst '?' (beforeFirst '#' (sanitizeUrl rest)) :=
    beforeFirst_cons2 '?' '/' c (by decide) hq2 _
  intro pre hpre
  rcases hpre with rfl | rfl | rfl | rfl
  · have hsan : sanitizeUrl ("http://youtu.be/".data ++ c :: rest) =
        "http://youtu.be/".data ++ c :: sanitizeUrl rest := by
      unfold sanitizeUrl
      rw [List.filter_append]
      congr 1
      rw [List.filter_cons, if_pos hkeep]
    have hcore : urlsplitE ("http://youtu.be/".data ++ c :: rest) =
        .ok ⟨"http".data, "youtu.be".data,
             beforeFirst '?' (beforeFirst '#' ('/' :: c :: sanitizeUrl rest)),
             afterFirst '?' (beforeFirst '#' ('/' :: c :: sanitizeUrl rest)),
             afterFirst '#' ('/' :: c :: sanitizeUrl rest)⟩ := by
      unfold urlsplitE
      rw [hsan]
      rfl
    refine ⟨_, hcore, ?_, ⟨beforeFirst '?' (beforeFirst '#' (sanitizeUrl rest)), ?_⟩⟩
    · show containsSub ("youtu.be".data) ("youtu.be".data) = true
      decide
    · show beforeFirst '?' (beforeFirst '#' ('/' :: c :: sanitizeUrl rest)) = _
      rw [hbf, hbq]
  · have hsan : sanitizeUrl ("https://youtu.be/".data ++ c :: rest) =
        "https://youtu.be/".data ++ c :: sanitizeUrl rest := by
      unfold sanitizeUrl
      rw [List.filter_append]
      congr 1
      rw [List.filter_cons, if_pos hkeep]
    have hcore : urlsplitE ("https://youtu.be/".data ++ c :: rest) =
        .ok ⟨"https".data, "youtu.be".data,
             beforeFirst '?' (beforeFirst '#' ('/' :: c :: sanitizeUrl rest)),
             afterFirst '?' (beforeFirst '#' ('/' :: c :: sanitizeUrl rest)),
             afterFirst '#' ('/' :: c :: sanitizeUrl rest)⟩ := by
      unfold urlsplitE
      rw [hsan]
      rfl
    refine ⟨_, hcore, ?_, ⟨beforeFirst '?' (beforeFirst '#' (sanitizeUrl rest)), ?_⟩⟩
    · show containsSub ("youtu.be".data) ("youtu.be".data) = true
      decide
    · show beforeFirst '?' (beforeFirst '#' ('/' :: c :: sanitizeUrl rest)) = _
      rw [hbf, hbq]
  · have hsan : sanitizeUrl ("http://www.youtu.be/".data ++ c :: rest) =
        "http://www.youtu.be/".data ++ c :: sanitizeUrl rest := by
      unfold sanitizeUrl
      rw [List.filter_append]
      congr 1
      rw [List.filter_cons, if_pos hkeep]
    have hcore : urlsplitE ("http://www.youtu.be/".data ++ c :: rest) =
        .ok ⟨"http".data, "www.youtu.be".data,
             beforeFirst '?' (beforeFirst '#' ('/' :: c :: sanitizeUrl rest)),
             afterFirst '?' (beforeFirst '#' ('/' :: c :: sanitizeUrl rest)),
             afterFirst '#' ('/' :: c :: sanitizeUrl rest)⟩ := by
      unfold urlsplitE
      rw [hsan]
      rfl
    refine ⟨_, hcore, ?_, ⟨beforeFirst '?' (beforeFirst '#' (sanitizeUrl rest)), ?_⟩⟩
    · show containsSub ("youtu.be".data) ("www.youtu.be".data) = true
      decide
    · show beforeFirst '?' (beforeFirst '#' ('/' :: c :: sanitizeUrl rest)) = _
      rw [hbf, hbq]
  · have hsan : sanitizeUrl ("https://www.youtu.be/".data ++ c :: rest) =
        "https://www.youtu.be/".data ++ c :: sanitizeUrl rest := by
      unfold sanitizeUrl
      rw [List.filter_append]
      congr 1
      rw [List.filter_cons, if_pos hkeep]
    have hcore : urlsplitE ("https://www.youtu.be/".data ++ c :: rest) =
        .ok ⟨"https".data, "www.youtu.be".data,
             beforeFirst '?' (beforeFirst '#' ('/' :: c :: sanitizeUrl rest)),
             afterFirst '?' (beforeFirst '#' ('/' :: c :: sanitizeUrl rest)),
             afterFirst '#' ('/' :: c :: sanitizeUrl rest)⟩ := by
      unfold urlsplitE
      rw [hsan]
      rfl
    refine ⟨_, hcore, ?_, ⟨beforeFirst '?' (beforeFirst '#' (sanitizeUrl rest)), ?_⟩⟩
    · show containsSub ("youtu.be".data) ("www.youtu.be".data) = true
      decide
    · show beforeFirst '?' (beforeFirst '#' ('/' :: c :: sanitizeUrl rest)) = _
      rw [hbf, hbq]

theorem split_com (c : Char) (rest : Str) (hwc : wordChar c = true) :
    ∀ pre, (pre = "http://youtube.com/watch?v=".data ∨
            pre = "https://youtube.com/watch?v=".data ∨
            pre = "http://www.youtube.com/watch?v=".data ∨
            pre = "https://www.youtube.com/watch?v=".data) →
    ∃ s : SplitResult, urlsplitE (pre ++ c :: rest) = .ok s ∧
      containsSub ("youtu.be".data) s.netloc = false ∧
      containsSub ("youtube.com".data) s.netloc = true ∧
      s.path.contains ';' = false ∧
      ∃ t, s.query = 'v' :: '=' :: c :: t := by
  have hkeep : (!(c == '\t' || c == '\r' || c == '\n')) = true := by
    have h1 := wordChar_ne c '\t' hwc (by decide)
    have h2 := wordChar_ne c '\r' hwc (by decide)
    have h3 := wordChar_ne c '\n' hwc (by decide)
    simp [h1, h2, h3]
  have hq3 : c ≠ '#' := wordChar_ne c '#' hwc (by decide)
  have hBF : beforeFirst '#' ("/watch?v=".data ++ c :: sanitizeUrl rest) =
      "/watch?v=".data ++ c :: beforeFirst '#' (sanitizeUrl rest) := by
    rw [beforeFirst_append '#' ("/watch?v=".data) (by decide) (c :: sanitizeUrl rest),
        beforeFirst_cons1 '#' c hq3 (sanitizeUrl rest)]
  have hshape : ("/watch?v=".data ++ (c :: beforeFirst '#' (sanitizeUrl rest)) : Str) =
      "/watch".data ++ '?' :: ("v=".data ++ (c :: beforeFirst '#' (sanitizeUrl rest))) := rfl
  have hpath : beforeFirst '?' ("/watch?v=".data ++ (c :: beforeFirst '#' (sanitizeUrl rest))) =
      "/watch".data := by
    rw [hshape, beforeFirst_append '?' ("/watch".data) (by decide)
        ('?' :: ("v=".data ++ (c :: beforeFirst '#' (sanitizeUrl rest)))),
      beforeFirst_cons_self, List.append_nil]
  have hquery : afterFirst '?' ("/watch?v=".data ++ (c :: beforeFirst '#' (sanitizeUrl rest))) =
      'v' :: '=' :: c :: beforeFirst '#' (sanitizeUrl rest) := by
    rw [hshape, afterFirst_append '?' ("/watch".data) (by decide)
        ('?' :: ("v=".data ++ (c :: beforeFirst '#' (sanitizeUrl rest)))),
      afterFirst_cons_self]
    rfl
  intro pre hpre
  rcases hpre with rfl | rfl | rfl | rfl
  · have hsan : sanitizeUrl ("http://youtube.com/watch?v=".data ++ c :: rest) =
        "http://youtube.com/watch?v=".data ++ c :: sanitizeUrl rest := by
      unfold sanitizeUrl
      rw [List.filter_append]
      congr 1
      rw [List.filter_cons, if_pos hkeep]
    have hcore : urlsplitE ("http://youtube.com/watch?v=".data ++ c :: rest) =
        .ok ⟨"http".data, "youtube.com".data,
             beforeFirst '?' (beforeFirst '#' ("/watch?v=".data ++ c :: sanitizeUrl rest)),
             afterFirst '?' (beforeFirst '#' ("/watch?v=".data ++ c :: sanitizeUrl rest)),
             afterFirst '#' ("/watch?v=".data ++ c :: sanitizeUrl rest)⟩ := by
      unfold urlsplitE
      rw [hsan]
      rfl
    refine ⟨_, hcore, ?_, ?_, ?_, ⟨beforeFirst '#' (sanitizeUrl rest), ?_⟩⟩
    · show containsSub ("youtu.be".data) ("youtube.com".data) = false
      decide
    · show containsSub ("youtube.com".data) ("youtube.com".data) = true
      decide
    · show (beforeFirst '?' (beforeFirst '#'
          ("/watch?v=".data ++ c :: sanitizeUrl rest))).contains ';' = false
      rw [hBF, hpath]
      rfl
    · show afterFirst '?' (beforeFirst '#' ("/watch?v=".data ++ c :: sanitizeUrl rest)) = _
      rw [hBF, hquery]
  · have hsan : sanitizeUrl ("https://youtube.com/watch?v=".data ++ c :: rest) =
        "https://youtube.com/watch?v=".data ++ c :: sanitizeUrl rest := by
      unfold sanitizeUrl
      rw [List.filter_append]
      congr 1
      rw [List.filter_cons, if_pos hkeep]
    have hcore : urlsplitE ("https://youtube.com/watch?v=".data ++ c :: rest) =
        .ok ⟨"https".data, "youtube.com".data,
             beforeFirst '?' (beforeFirst '#' ("/watch?v=".data ++ c :: sanitizeUrl rest)),
             afterFirst '?' (beforeFirst '#' ("/watch?v=".data ++ c :: sanitizeUrl rest)),
             afterFirst '#' ("/watch?v=".data ++ c :: sanitizeUrl rest)⟩ := by
      unfold urlsplitE
      rw [hsan]
      rfl
    refine ⟨_, hcore, ?_, ?_, ?_, ⟨beforeFirst '#' (sanitizeUrl rest), ?_⟩⟩
    · show containsSub ("youtu.be".data) ("youtube.com".data) = false
      decide
    · show containsSub ("youtube.com".data) ("youtube.com".data) = true
      decide
    · show (beforeFirst '?' (beforeFirst '#'
          ("/watch?v=".data ++ c :: sanitizeUrl rest))).contains ';' = false
      rw [hBF, hpath]
      rfl
    · show afterFirst '?' (beforeFirst '#' ("/watch?v=".data ++ c :: sanitizeUrl rest)) = _
      rw [hBF, hquery]
  · have hsan : sanitizeUrl ("http://www.youtube.com/watch?v=".data ++ c :: rest) =
        "http://www.youtube.com/watch?v=".data ++ c :: sanitizeUrl rest := by
      unfold sanitizeUrl
      rw [List.filter_append]
      congr 1
      rw [List.filter_cons, if_pos hkeep]
    have hcore : urlsplitE ("http://www.youtube.com/watch?v=".data ++ c :: rest) =
        .ok ⟨"http".data, "www.youtube.com".data,
             beforeFirst '?' (beforeFirst '#' ("/watch?v=".data ++ c :: sanitizeUrl rest)),
             afterFirst '?' (beforeFirst '#' ("/watch?v=".data ++ c :: sanitizeUrl rest)),
             afterFirst '#' ("/watch?v=".data ++ c :: sanitizeUrl rest)⟩ := by
      unfold urlsplitE
      rw [hsan]
      rfl
    refine ⟨_, hcore, ?_, ?_, ?_, ⟨beforeFirst '#' (sanitizeUrl rest), ?_⟩⟩
    · show containsSub ("youtu.be".data) ("www.youtube.com".data) = false
      decide
    · show containsSub ("youtube.com".data) ("www.youtube.com".data) = true
      decide
    · show (beforeFirst '?' (beforeFirst '#'
          ("/watch?v=".data ++ c :: sanitizeUrl rest))).contains ';' = false
      rw [hBF, hpath]
      rfl
    · show afterFirst '?' (beforeFirst '#' ("/watch?v=".data ++ c :: sanitizeUrl rest)) = _
      rw [hBF, hquery]
  · have hsan : sanitizeUrl ("https://www.youtube.com/watch?v=".data ++ c :: rest) =
        "https://www.youtube.com/watch?v=".data ++ c :: sanitizeUrl rest := by
      unfold sanitizeUrl
      rw [List.filter_append]
      congr 1
      rw [List.filter_cons, if_pos hkeep]
    have hcore : urlsplitE ("https://www.youtube.com/watch?v=".data ++ c :: rest) =
        .ok ⟨"https".data, "www.youtube.com".data,
             beforeFirst '?' (beforeFirst '#' ("/watch?v=".data ++ c :: sanitizeUrl rest)),
             afterFirst '?' (beforeFirst '#' ("/watch?v=".data ++ c :: sanitizeUrl rest)),
             afterFirst '#' ("/watch?v=".data ++ c :: sanitizeUrl rest)⟩ := by
      unfold urlsplitE
      rw [hsan]
      rfl
    refine ⟨_, hcore, ?_, ?_, ?_, ⟨beforeFirst '#' (sanitizeUrl rest), ?_⟩⟩
    · show containsSub ("youtu.be".data) ("www.youtube.com".data) = false
      decide
    · show containsSub ("youtube.com".data) ("www.youtube.com".data) = true
      decide
    · show (beforeFirst '?' (beforeFirst '#'
          ("/watch?v=".data ++ c :: sanitizeUrl rest))).contains ';' = false
      rw [hBF, hpath]
      rfl
    · show afterFirst '?' (beforeFirst '#' ("/watch?v=".data ++ c :: sanitizeUrl rest)) = _
      rw [hBF, hquery]

/-- C10.  Every URL that validate_youtube_url accepts yields a non-empty
video id from extract_video_id: a URL accepted at the validation boundary
always gives a usable id downstream. -/
theorem spec_c10 : ∀ url : Str, validate_youtube_url url = true →
    ∃ id, extract_video_id url = .ok (some id) ∧ id ≠ [] := by
  intro url hv
  rcases (validate_iff_matchPattern url).mp hv with h | h
  · rcases (matchPattern_iff ("youtube.com/watch?v=".data) url).mp h with
      ⟨sch, www, c, rest, hsch, hwww, hwc, heq⟩
    have hamp : c ≠ '&' := wordChar_ne c '&' hwc (by decide)
    have hplus : c ≠ '+' := wordChar_ne c '+' hwc (by decide)
    have hpct : c ≠ '%' := wordChar_ne c '%' hwc (by decide)
    have hascii : c.toNat ≤ 127 := wordChar_ascii c hwc
    subst heq
    rcases hsch with rfl | rfl <;> rcases hwww with rfl | rfl
    · obtain ⟨s, hs, hbe, hcom, hns, hqv⟩ := split_com c rest hwc
        ("http://youtube.com/watch?v=".data) (Or.inl rfl)
      exact evi_com_of_split _ s c hs hbe hcom hns hqv hamp hplus hpct hascii
    · obtain ⟨s, hs, hbe, hcom, hns, hqv⟩ := split_com c rest hwc
        ("http://www.youtube.com/watch?v=".data) (Or.inr (Or.inr (Or.inl rfl)))
      exact evi_com_of_split _ s c hs hbe hcom hns hqv hamp hplus hpct hascii
    · obtain ⟨s, hs, hbe, hcom, hns, hqv⟩ := split_com c rest hwc
        ("https://youtube.com/watch?v=".data) (Or.inr (Or.inl rfl))
      exact evi_com_of_split _ s c hs hbe hcom hns hqv hamp hplus hpct hascii
    · obtain ⟨s, hs, hbe, hcom, hns, hqv⟩ := split_com c rest hwc
        ("https://www.youtube.com/watch?v=".data) (Or.inr (Or.inr (Or.inr rfl)))
      exact evi_com_of_split _ s c hs hbe hcom hns hqv hamp hplus hpct hascii
  · rcases (matchPattern_iff ("youtu.be/".data) url).mp h with
      ⟨sch, www, c, rest, hsch, hwww, hwc, heq⟩
    have hsl : c ≠ '/' := wordChar_ne c '/' hwc (by decide)
    have hsemi : c ≠ ';' := wordChar_ne c ';' hwc (by decide)
    subst heq
    rcases hsch with rfl | rfl <;> rcases hwww with rfl | rfl
    · obtain ⟨s, hs, hnl, t, hpath⟩ := split_be c rest hwc
        ("http://youtu.be/".data) (Or.inl rfl)
      exact evi_be_of_split _ s c t hs hpath hnl hsl hsemi
    · obtain ⟨s, hs, hnl, t, hpath⟩ := split_be c rest hwc
        ("http://www.youtu.be/".data) (Or.inr (Or.inr (Or.inl rfl)))
      exact evi_be_of_split _ s c t hs hpath hnl hsl hsemi
    · obtain ⟨s, hs, hnl, t, hpath⟩ := split_be c rest hwc
        ("https://youtu.be/".data) (Or.inr (Or.inl rfl))
      exact evi_be_of_split _ s c t hs hpath hnl hsl hsemi
    · obtain ⟨s, hs, hnl, t, hpath⟩ := split_be c rest hwc
        ("https://www.youtu.be/".data) (Or.inr (Or.inr (Or.inr rfl)))
      exact evi_be_of_split _ s c t hs hpath hnl hsl hsemi

/-- Witness for C10: a validated URL of each host shape yields its id. -/
theorem spec_c10_witness :
    validate_youtube_url ("https://youtu.be/abc123".data) = true ∧
    ∃ id, extract_video_id ("https://youtu.be/abc123".data) = .ok (some id) ∧ id ≠ [] := by
  exact ⟨by decide, spec_c10 ("https://youtu.be/abc123".data) (by decide)⟩
